import Mathlib

/-!
# Verification of the tinykv paged key-value store

This file gives a shallow embedding of the core of the `tinykv` storage
engine (leaf pages as raw 4096-byte buffers, the buffer pool over a byte
file, and the `DB` facade) and proves or refutes the specified properties.

Modelling conventions:
* A byte buffer (`p.cachedData` in the source) is a `List Nat`; the bytes
  written by the program are always `< 256`.
* Go's `binary.LittleEndian.Uint32(b[off:off+4])` is `readU32 b off`, and
  `PutUint32` is `writeBytes` with `u32le`.
* Go's explicit `uint32(...)` casts of input-dependent quantities
  (`uint32(len(key)+len(value)+8)`, `uint32(len(key))`, `uint32(len(value))`,
  `uint32(fileInfo.Size())`) are modelled with `w32`, truncation mod 2^32,
  because those casts can genuinely wrap for huge inputs.  All other
  arithmetic in the source stays far below 2^32 in every state quantified
  over by the theorems below, where Go's `uint32` arithmetic agrees with
  `Nat` arithmetic; `uint32` subtractions (`pageSize - offset`) are modelled
  with truncated `Nat` subtraction, which agrees with the wrapping
  subtraction whenever the subtrahend is not larger (true in every
  well-formed state, enforced by the `Represents` hypotheses).
* Go's `copy(dst, src)` copies `min (len dst) (len src)` bytes; the copies
  in `addCell` have `len dst = uint32 (len src)`, hence `src.take (w32 ...)`.
* File I/O errors (`os.File.Stat/ReadAt/WriteAt` failures other than short
  reads) are environmental and not modelled; `ReadAt` reporting a short
  read is modelled (`KvError.readFailed`).  Go panics are modelled as a
  distinct `GoResult.panicked` outcome, separate from returned errors.
* In the Go `const` block, `pageSize` occupies the first `iota` slot, so
  `pageKindUnallocated = 1`, `pageKindHeader = 2`, `pageKindLeaf = 3`,
  `pageKindInternal = 4`.
-/

namespace Tinykv

/-- `pageSize uint32 = 4096`. -/
def pageSize : Nat := 4096

/-- uint32 truncation, mirroring Go's `uint32(x)` conversions. -/
def w32 (n : Nat) : Nat := n % 4294967296

/-- The four little-endian bytes of a `uint32` value (`binary.LittleEndian.PutUint32`). -/
def u32le (n : Nat) : List Nat := [n % 256, n / 256 % 256, n / 65536 % 256, n / 16777216 % 256]

/-- `binary.LittleEndian.Uint32` on a 4-byte slice. -/
def leUint32 (bs : List Nat) : Nat :=
  bs.getD 0 0 + 256 * bs.getD 1 0 + 65536 * bs.getD 2 0 + 16777216 * bs.getD 3 0

/-- The Go slice `d[off : off+len]`. -/
def sliceB (d : List Nat) (off len : Nat) : List Nat := (d.drop off).take len

/-- `binary.LittleEndian.Uint32(d[off : off+4])`. -/
def readU32 (d : List Nat) (off : Nat) : Nat := leUint32 (sliceB d off 4)

/-- Overwrite `d[off : off+src.length]` with `src` (Go `copy` into a slice of
the same length, or `PutUint32`). -/
def writeBytes (d : List Nat) (off : Nat) (src : List Nat) : List Nat :=
  d.take off ++ src ++ d.drop (off + src.length)

/-- `pageKindUnallocated pageKind = iota`: `iota` is already 1 here because
`pageSize` occupies the first spec of the `const` block. -/
def pageKindUnallocated : Nat := 1

def pageKindHeader : Nat := 2

def pageKindLeaf : Nat := 3

def pageKindInternal : Nat := 4

/-- `leafPage.getNumCells`: `binary.LittleEndian.Uint32(p.cachedData[6:10])`. -/
def getNumCells (d : List Nat) : Nat := readU32 d 6

/-- `leafPage.setNumCells`. -/
def setNumCells (d : List Nat) (n : Nat) : List Nat := writeBytes d 6 (u32le n)

/-- `leafPage.setIsRoot`. -/
def setIsRoot (d : List Nat) (b : Bool) : List Nat := writeBytes d 1 [if b then 1 else 0]

/-- `leafPage.setParentIndex` (the argument is `uint32(parentIndex)` for an `int32`). -/
def setParentIndex (d : List Nat) (n : Nat) : List Nat := writeBytes d 2 (u32le n)

/-- `leafPage.getKind`: `pageKind(p.cachedData[0])`, no validation. -/
def getKind (d : List Nat) : Nat := d.getD 0 0

/-- The buffer built by `newLeafPage(index, nil)`: a zeroed page with
`kind = pageKindLeaf`, `numCells = 0`, `isRoot = true`, `parentIndex = -1`
(`uint32(int32(-1)) = 4294967295`). -/
def newLeafPageData : List Nat :=
  setParentIndex (setIsRoot (setNumCells (writeBytes (List.replicate 4096 0) 0 [pageKindLeaf]) 0) true) 4294967295

/-- The offset bookkeeping of `leafPage.iterCells` when the callback never
stops the iteration (this is how `getFreeSpace` uses it): starting at `off`,
skip `n` cells, where each cell advances the offset by
`4 + keyLen + 4 + valueLen`. -/
def iterEnd (d : List Nat) : Nat → Nat → Nat
  | 0, off => off
  | n+1, off => iterEnd d n (off + 8 + readU32 d off + readU32 d (off + 4 + readU32 d off))

/-- `leafPage.getFreeSpace`: `uint32(pageSize) - p.iterCells(...)` where the
callback always continues, i.e. the iteration runs over all `numCells` cells
from offset 10. -/
def getFreeSpace (d : List Nat) : Nat := pageSize - iterEnd d (getNumCells d) 10

/-- `bytes.Compare`, as an `Ordering` (`1` in the source corresponds to `.gt`). -/
def bytesCompare : List Nat → List Nat → Ordering
  | [], [] => .eq
  | [], _ :: _ => .lt
  | _ :: _, [] => .gt
  | a :: as, b :: bs => if a < b then .lt else if b < a then .gt else bytesCompare as bs

/-- The insertion-point scan of `addCell`: `iterCells` with the callback that
stops at the first cell whose key is strictly greater than `key`
(`bytes.Compare(entryKey, key) == 1`), returning that cell's `entryOffset`. -/
def findInsertLoop (d key : List Nat) : Nat → Nat → Option Nat
  | 0, _ => none
  | n+1, off =>
    let kl := readU32 d off
    if bytesCompare (sliceB d (off+4) kl) key = Ordering.gt then some off
    else findInsertLoop d key n (off + 8 + kl + readU32 d (off + 4 + kl))

/-- The typed content of the `error` values and panics produced by the source. -/
inductive KvError where
  | notEnoughSpace (required free : Nat)
  | invalidPageIndex (idx : Nat)
  | flushUnloaded
  | readFailed
  deriving DecidableEq, Repr

/-- `leafPage.addCell`.  Returns the Go `error` result together with the
buffer after the call (the buffer is mutated in place in the source; on the
capacity error the function returns before touching it). -/
def addCell (d k v : List Nat) : Option KvError × List Nat :=
  let required := w32 (k.length + v.length + 8)
  let free := getFreeSpace d
  if required > free then (some (.notEnoughSpace required free), d)
  else
    let off := (findInsertLoop d k (getNumCells d) 10).getD (pageSize - free)
    let rhsSize := pageSize - off - free
    let d1 := if rhsSize > 0 then writeBytes d (off + required) (sliceB d off rhsSize) else d
    let kl := w32 k.length
    let vl := w32 v.length
    let d2 := writeBytes d1 off (u32le kl)
    let d3 := writeBytes d2 (off + 4) (k.take kl)
    let d4 := writeBytes d3 (off + 4 + kl) (u32le vl)
    let d5 := writeBytes d4 (off + 8 + kl) (v.take vl)
    let d6 := setNumCells d5 (getNumCells d5 + 1)
    (none, d6)

/-- `leafPage.findCell`: `iterCells` with the callback that stops at the
first cell whose key is `bytes.Equal` to `key` and copies out its value;
the Go function's `error` component is always `nil`. -/
def findCellLoop (d key : List Nat) : Nat → Nat → Option (List Nat)
  | 0, _ => none
  | n+1, off =>
    let kl := readU32 d off
    let k := sliceB d (off+4) kl
    let vl := readU32 d (off+4+kl)
    if key = k then some (sliceB d (off+8+kl) vl)
    else findCellLoop d key n (off+8+kl+vl)

def findCell (d key : List Nat) : Option (List Nat) := findCellLoop d key (getNumCells d) 10

/-- `leafPage.iterCells` with a callback that records `(key, value, entryOffset)`
for every cell (the visualization consumer; also the observation used by the
iteration-order properties). -/
def cellsOfBuf (d : List Nat) : Nat → Nat → List (List Nat × List Nat × Nat)
  | 0, _ => []
  | n+1, off =>
    let kl := readU32 d off
    let key := sliceB d (off+4) kl
    let vl := readU32 d (off+4+kl)
    let vbytes := sliceB d (off+8+kl) vl
    (key, vbytes, off) :: cellsOfBuf d n (off + 8 + kl + vl)

def iterCellsList (d : List Nat) : List (List Nat × List Nat × Nat) :=
  cellsOfBuf d (getNumCells d) 10

/-! ## Abstract view of a leaf page

A well-formed leaf page is a byte buffer whose cell region is the
concatenated encoding of a list of cells.  These definitions are the
specification-side counterpart used to state what the byte-level code
computes; `Represents` ties the two together. -/

/-- One key/value cell. -/
structure Cell where
  key : List Nat
  val : List Nat
  deriving DecidableEq, Repr

/-- Physical size of a cell: two u32 length prefixes plus the payloads. -/
def cellSize (c : Cell) : Nat := 8 + c.key.length + c.val.length

/-- On-disk encoding of one cell: `keyLen, key, valueLen, value`. -/
def encCell (c : Cell) : List Nat := u32le c.key.length ++ c.key ++ u32le c.val.length ++ c.val

def encCells : List Cell → List Nat
  | [] => []
  | c :: cs => encCell c ++ encCells cs

def sizeCells : List Cell → Nat
  | [] => 0
  | c :: cs => cellSize c + sizeCells cs

/-- The predicate under which `addCell`'s scan keeps walking past a cell:
the cell's key is not strictly greater than the new key. -/
def notGtKey (k : List Nat) (c : Cell) : Bool :=
  match bytesCompare c.key k with
  | .gt => false
  | _ => true

/-- Abstract effect of a successful `addCell`: the new cell goes in front of
the first existing cell whose key is strictly greater. -/
def insertCell (cs : List Cell) (k v : List Nat) : List Cell :=
  cs.takeWhile (notGtKey k) ++ ⟨k, v⟩ :: cs.dropWhile (notGtKey k)

/-- Abstract effect of `findCell`: the value of the first cell with an equal key. -/
def findVal : List Cell → List Nat → Option (List Nat)
  | [], _ => none
  | c :: cs, k => if k = c.key then some c.val else findVal cs k

def keysOf (cs : List Cell) : List (List Nat) := cs.map Cell.key

/-- The `(key, value, entryOffset)` triples produced by iterating a gapless
cell region that starts at `off`. -/
def cellsWithOffsets : List Cell → Nat → List (List Nat × List Nat × Nat)
  | [], _ => []
  | c :: cs, off => (c.key, c.val, off) :: cellsWithOffsets cs (off + cellSize c)

/-- Non-strict key order between cells (`bytes.Compare ≤ 0`). -/
def keyLe (a b : Cell) : Prop := bytesCompare a.key b.key ≠ .gt

/-- Strict key order between cells. -/
def keyLt (a b : Cell) : Prop := bytesCompare a.key b.key = .lt

/-- A sequence of `addCell` calls, stopping at the first failure (`none`
means some call returned an error). -/
def addCellsFold : List Nat → List (List Nat × List Nat) → Option (List Nat)
  | d, [] => some d
  | d, (k, v) :: rest =>
    match addCell d k v with
    | (some _, _) => none
    | (none, d') => addCellsFold d' rest

/-- The abstract counterpart of a sequence of insertions. -/
def insertFold (cs : List Cell) (l : List (List Nat × List Nat)) : List Cell :=
  l.foldl (fun acc kv => insertCell acc kv.1 kv.2) cs

/-- The byte region `[off, off + sizeCells cs)` of `d` holds exactly the
encoding of `cs`, staying inside the buffer, with all length prefixes
faithfully decodable. -/
def regionEnc (d : List Nat) (off : Nat) (cs : List Cell) : Prop :=
  sliceB d off (sizeCells cs) = encCells cs ∧
  off + sizeCells cs ≤ d.length ∧
  ∀ c ∈ cs, c.key.length < 4294967296 ∧ c.val.length < 4294967296

/-- `d` is a well-formed leaf page buffer holding exactly the cells `cs`. -/
def Represents (d : List Nat) (cs : List Cell) : Prop :=
  d.length = 4096 ∧ getKind d = pageKindLeaf ∧ getNumCells d = cs.length ∧
  regionEnc d 10 cs

/-! ## Buffer pool and DB facade

`bufferPool` owns the backing file (a byte sequence here) and a slice of
lazily loaded pages; only leaf pages are ever constructed.  Go panics are a
distinct outcome from returned errors. -/

structure LeafPage where
  index : Nat
  data : List Nat
  deriving DecidableEq, Repr

structure BufferPool where
  fileData : List Nat
  pages : List (Option LeafPage)
  deriving DecidableEq, Repr

inductive GoResult (α : Type) where
  | ok (a : α)
  | err (e : KvError)
  | panicked (msg : String)
  deriving DecidableEq, Repr

/-- `os.File.WriteAt`: overwrite at `off`, zero-filling any gap beyond the
current end of file and extending the file as needed. -/
def fileWriteAt (fd : List Nat) (off : Nat) (src : List Nat) : List Nat :=
  fd.take off ++ List.replicate (off - fd.length) 0 ++ src ++ fd.drop (off + src.length)

/-- `bufferPool.getPageCount`: `uint32(fileInfo.Size()) / pageSize` (the
only error path is a `Stat` I/O failure, which is environmental). -/
def getPageCount (bp : BufferPool) : Nat := w32 bp.fileData.length / pageSize

/-- `newBufferPool`: open/create the file and allocate one unloaded slot per
existing page (`make([]page, pageCount)`); the error paths are file-open and
`Stat` I/O failures, which are environmental. -/
def newBufferPool (fd : List Nat) : BufferPool :=
  ⟨fd, List.replicate (w32 fd.length / pageSize) none⟩

/-- `bufferPool.flushPage`: write the loaded page's buffer at
`pageIndex * pageSize`; error if the slot is unloaded; Go panics if the
index is out of range of the slot slice. -/
def flushPage (bp : BufferPool) (idx : Nat) : GoResult BufferPool :=
  if idx < bp.pages.length then
    match bp.pages.getD idx none with
    | none => .err .flushUnloaded
    | some p => .ok ⟨fileWriteAt bp.fileData (idx * pageSize) p.data, bp.pages⟩
  else .panicked "index out of range"

/-- `bufferPool.addPage`: append `newLeafPage(pageCount, nil)` and flush it
(write-through); the `flushPage` error return is discarded by the source. -/
def addPage (bp : BufferPool) : GoResult BufferPool :=
  let pc := getPageCount bp
  let bp1 : BufferPool := ⟨bp.fileData, bp.pages ++ [some ⟨pc, newLeafPageData⟩]⟩
  match flushPage bp1 pc with
  | .ok bp2 => .ok bp2
  | .err _ => .ok bp1
  | .panicked msg => .panicked msg

/-- `bufferPool.getPage`: out-of-range indices are an error; an unloaded
slot is read from the file (`ReadAt` fails on a short read) and dispatched
on the page-kind tag — only `pageKindLeaf` (= 3) constructs a page, all
other tags panic. -/
def getPage (bp : BufferPool) (idx : Nat) : GoResult (BufferPool × LeafPage) :=
  if bp.pages.length ≤ idx then .err (.invalidPageIndex idx)
  else
    match bp.pages.getD idx none with
    | some p => .ok (bp, p)
    | none =>
      if bp.fileData.length < idx * pageSize + pageSize then .err .readFailed
      else
        let pageData := sliceB bp.fileData (idx * pageSize) pageSize
        match getKind pageData with
        | 2 => .panicked "TODO: import header page"
        | 1 => .panicked "TODO: import unallocated page"
        | 3 => .ok (⟨bp.fileData, bp.pages.set idx (some ⟨idx, pageData⟩)⟩, ⟨idx, pageData⟩)
        | 4 => .panicked "TODO: import internal page"
        | _ => .panicked "invalid page kind"

/-- The flush loop of `bufferPool.close`: flush every loaded page, in slot
order, accumulating the file contents. -/
def flushAll : List (Option LeafPage) → Nat → List Nat → List Nat
  | [], _, fd => fd
  | none :: rest, idx, fd => flushAll rest (idx+1) fd
  | some p :: rest, idx, fd => flushAll rest (idx+1) (fileWriteAt fd (idx * pageSize) p.data)

/-- `bufferPool.close`, observed through the final file contents (the pool
itself is discarded: `bp.pages = []`). -/
def closePool (bp : BufferPool) : List Nat := flushAll bp.pages 0 bp.fileData

/-- `OpenDB`: open a buffer pool on the file and unconditionally `addPage`
(the `DB` value is just the pool). -/
def OpenDB (fd : List Nat) : GoResult BufferPool :=
  match addPage (newBufferPool fd) with
  | .ok bp => .ok bp
  | .err e => .err e
  | .panicked msg => .panicked msg

/-- `DB.Set`: fetch page 0, panic on an existing key, otherwise `addCell`
into page 0's buffer (mutated in place, i.e. slot 0 of the pool). -/
def DB.Set (bp : BufferPool) (k v : List Nat) : GoResult BufferPool :=
  match getPage bp 0 with
  | .err e => .err e
  | .panicked msg => .panicked msg
  | .ok (bp1, pg) =>
    match findCell pg.data k with
    | some _ => .panicked "TODO: can't replace cells yet"
    | none =>
      match addCell pg.data k v with
      | (some e, _) => .err e
      | (none, d') => .ok ⟨bp1.fileData, bp1.pages.set 0 (some ⟨pg.index, d'⟩)⟩

/-- `DB.Get`: fetch page 0 and delegate to `findCell` (whose `error` is
always `nil`). -/
def DB.Get (bp : BufferPool) (k : List Nat) : GoResult (Option (List Nat)) :=
  match getPage bp 0 with
  | .err e => .err e
  | .panicked msg => .panicked msg
  | .ok (_, pg) => .ok (findCell pg.data k)

/-! ## Byte-buffer algebra -/

theorem length_u32le (n : Nat) : (u32le n).length = 4 := rfl

theorem w32_eq {n : Nat} (h : n < 4294967296) : w32 n = n := Nat.mod_eq_of_lt h

theorem w32_le (n : Nat) : w32 n ≤ n := Nat.mod_le n _

theorem leUint32_u32le {n : Nat} (h : n < 4294967296) : leUint32 (u32le n) = n := by
  simp only [leUint32, u32le, List.getD_cons_zero, List.getD_cons_succ]
  omega

theorem length_sliceB_of_le {d : List Nat} {off n : Nat} (h : off + n ≤ d.length) :
    (sliceB d off n).length = n := by
  simp only [sliceB, List.length_take, List.length_drop]
  omega

theorem sliceB_zero (d : List Nat) (off : Nat) : sliceB d off 0 = [] := rfl

theorem sliceB_split (d : List Nat) (off m n : Nat) :
    sliceB d off (m + n) = sliceB d off m ++ sliceB d (off + m) n := by
  simp only [sliceB, List.take_add, List.drop_drop]

theorem length_writeBytes {d src : List Nat} {off : Nat} (h : off + src.length ≤ d.length) :
    (writeBytes d off src).length = d.length := by
  simp only [writeBytes, List.length_append, List.length_take, List.length_drop]
  omega

theorem sliceB_writeBytes_self {d : List Nat} {off : Nat} (h : off ≤ d.length) (src : List Nat) :
    sliceB (writeBytes d off src) off src.length = src := by
  have h1 : (d.take off).length = off := by simp [h]
  simp only [writeBytes, sliceB, List.append_assoc]
  rw [List.drop_left' h1, List.take_left' rfl]

theorem sliceB_writeBytes_left {d src : List Nat} {off a n : Nat}
    (h1 : a + n ≤ off) (h2 : off ≤ d.length) :
    sliceB (writeBytes d off src) a n = sliceB d a n := by
  have hlt : (d.take off).length = off := by simp [h2]
  simp only [writeBytes, sliceB, List.append_assoc]
  rw [List.drop_append_of_le_length (by omega), List.take_append_of_le_length (by simp; omega)]
  rw [List.take_drop, List.take_take, Nat.min_eq_left (by omega), ← List.take_drop]

theorem sliceB_writeBytes_right {d src : List Nat} {off a n : Nat}
    (h1 : off + src.length ≤ a) (h2 : off ≤ d.length) :
    sliceB (writeBytes d off src) a n = sliceB d a n := by
  have hlt : (d.take off ++ src).length = off + src.length := by simp [h2]
  simp only [writeBytes, sliceB, ← List.append_assoc]
  have ha : a = (d.take off ++ src).length + (a - off - src.length) := by omega
  rw [ha, List.drop_append, List.drop_drop]
  congr 2
  omega

theorem readU32_writeBytes_left {d src : List Nat} {off a : Nat}
    (h1 : a + 4 ≤ off) (h2 : off ≤ d.length) :
    readU32 (writeBytes d off src) a = readU32 d a := by
  simp only [readU32, sliceB_writeBytes_left h1 h2]

theorem readU32_writeBytes_right {d src : List Nat} {off a : Nat}
    (h1 : off + src.length ≤ a) (h2 : off ≤ d.length) :
    readU32 (writeBytes d off src) a = readU32 d a := by
  simp only [readU32, sliceB_writeBytes_right h1 h2]

theorem getKind_writeBytes {d src : List Nat} {off : Nat} (h1 : 1 ≤ off) (h2 : off ≤ d.length) :
    getKind (writeBytes d off src) = getKind d := by
  have hlt : (d.take off).length = off := by simp [h2]
  have h0 : (0 : Nat) < (d.take off).length := by omega
  simp only [getKind, writeBytes, List.append_assoc, List.getD_eq_getElem?_getD]
  rw [List.getElem?_append_left h0, List.getElem?_take_of_lt (by omega)]

theorem readU32_setNumCells {d : List Nat} {n : Nat} (hd : 10 ≤ d.length)
    (hn : n < 4294967296) : readU32 (setNumCells d n) 6 = n := by
  have := @sliceB_writeBytes_self d 6 (by omega) (u32le n)
  simp only [setNumCells, readU32]
  rw [show (4 : Nat) = (u32le n).length from rfl, this, leUint32_u32le hn]

theorem getNumCells_setNumCells {d : List Nat} {n : Nat} (hd : 10 ≤ d.length)
    (hn : n < 4294967296) : getNumCells (setNumCells d n) = n :=
  readU32_setNumCells hd hn

/-! ## The fresh leaf page -/

theorem nl_len0 : (writeBytes (List.replicate 4096 0) 0 [pageKindLeaf]).length = 4096 := by
  rw [length_writeBytes (by simp only [List.length_replicate, List.length_cons, List.length_nil]; omega)]
  exact List.length_replicate 4096 0

theorem nl_len1 : (setNumCells (writeBytes (List.replicate 4096 0) 0 [pageKindLeaf]) 0).length = 4096 := by
  rw [setNumCells, length_writeBytes (by rw [length_u32le, nl_len0]; omega), nl_len0]

theorem nl_len2 :
    (setIsRoot (setNumCells (writeBytes (List.replicate 4096 0) 0 [pageKindLeaf]) 0) true).length = 4096 := by
  rw [setIsRoot,
    length_writeBytes (by rw [nl_len1]; simp only [List.length_cons, List.length_nil]; omega), nl_len1]

theorem length_newLeafPageData : newLeafPageData.length = 4096 := by
  rw [newLeafPageData, setParentIndex,
    length_writeBytes (by rw [length_u32le, nl_len2]; omega), nl_len2]

theorem getNumCells_newLeafPageData : getNumCells newLeafPageData = 0 := by
  unfold newLeafPageData getNumCells
  rw [setParentIndex, readU32_writeBytes_right (by rw [length_u32le]) (by rw [nl_len2]; omega)]
  rw [setIsRoot, readU32_writeBytes_right (by simp only [List.length_cons, List.length_nil]; omega)
    (by rw [nl_len1]; omega)]
  exact readU32_setNumCells (by rw [nl_len0]; omega) (by norm_num)

theorem getKind_newLeafPageData : getKind newLeafPageData = pageKindLeaf := by
  unfold newLeafPageData
  rw [setParentIndex, getKind_writeBytes (by omega) (by rw [nl_len2]; omega)]
  rw [setIsRoot, getKind_writeBytes (by omega) (by rw [nl_len1]; omega)]
  rw [setNumCells, getKind_writeBytes (by omega) (by rw [nl_len0]; omega)]
  rw [writeBytes]
  simp only [List.take_zero, List.nil_append, List.singleton_append, getKind, List.getD_cons_zero]

theorem represents_newLeafPageData : Represents newLeafPageData [] := by
  refine ⟨length_newLeafPageData, getKind_newLeafPageData, by rw [getNumCells_newLeafPageData]; rfl, ?_⟩
  refine ⟨rfl, ?_, by intro c hc; cases hc⟩
  rw [length_newLeafPageData]
  show 10 + 0 ≤ 4096
  omega

/-! ## `bytesCompare` order theory -/

theorem bytesCompare_eq_iff : ∀ {a b : List Nat}, bytesCompare a b = .eq ↔ a = b := by
  intro a
  induction a with
  | nil => intro b; cases b <;> simp [bytesCompare]
  | cons x as ih =>
    intro b
    cases b with
    | nil => simp [bytesCompare]
    | cons y bs =>
      simp only [bytesCompare]
      split_ifs with h1 h2
      · simp; omega
      · simp; omega
      · have hxy : x = y := by omega
        simp [hxy, ih]

theorem bytesCompare_swap : ∀ {a b : List Nat}, bytesCompare a b = .lt ↔ bytesCompare b a = .gt := by
  intro a
  induction a with
  | nil => intro b; cases b <;> simp [bytesCompare]
  | cons x as ih =>
    intro b
    cases b with
    | nil => simp [bytesCompare]
    | cons y bs =>
      simp only [bytesCompare]
      rcases Nat.lt_trichotomy x y with h | h | h
      · rw [if_pos h, if_neg (by omega), if_pos h]
        simp
      · subst h
        rw [if_neg (by omega), if_neg (by omega), if_neg (by omega), if_neg (by omega)]
        exact ih
      · rw [if_neg (by omega), if_pos h, if_pos h]
        simp

theorem bytesCompare_lt_trans : ∀ {a b c : List Nat},
    bytesCompare a b = .lt → bytesCompare b c = .lt → bytesCompare a c = .lt := by
  intro a
  induction a with
  | nil =>
    intro b c h1 h2
    cases b with
    | nil => simp [bytesCompare] at h1
    | cons y bs =>
      cases c with
      | nil => simp [bytesCompare] at h2
      | cons z cs => simp [bytesCompare]
  | cons x as ih =>
    intro b c h1 h2
    cases b with
    | nil => simp [bytesCompare] at h1
    | cons y bs =>
      cases c with
      | nil => simp [bytesCompare] at h2
      | cons z cs =>
        simp only [bytesCompare] at h1 h2 ⊢
        have hxy : x < y ∨ (x = y ∧ bytesCompare as bs = .lt) := by
          by_cases hl : x < y
          · exact Or.inl hl
          · rw [if_neg hl] at h1
            by_cases hg : y < x
            · rw [if_pos hg] at h1; cases h1
            · exact Or.inr ⟨by omega, by rwa [if_neg hg] at h1⟩
        have hyz : y < z ∨ (y = z ∧ bytesCompare bs cs = .lt) := by
          by_cases hl : y < z
          · exact Or.inl hl
          · rw [if_neg hl] at h2
            by_cases hg : z < y
            · rw [if_pos hg] at h2; cases h2
            · exact Or.inr ⟨by omega, by rwa [if_neg hg] at h2⟩
        rcases hxy with hxy | ⟨hxy, has⟩ <;> rcases hyz with hyz | ⟨hyz, hbs⟩
        · rw [if_pos (by omega)]
        · rw [if_pos (by omega)]
        · rw [if_pos (by omega)]
        · subst hxy; subst hyz
          rw [if_neg (by omega), if_neg (by omega)]
          exact ih has hbs

theorem bytesCompare_not_gt {a b : List Nat} (h : bytesCompare a b ≠ .gt) :
    bytesCompare a b = .lt ∨ a = b := by
  rcases ho : bytesCompare a b with _ | _ | _
  · left; rfl
  · right; exact bytesCompare_eq_iff.mp ho
  · exact absurd ho h

theorem bytesCompare_lt_of_lt_of_not_gt {a b c : List Nat}
    (h1 : bytesCompare a b = .lt) (h2 : bytesCompare b c ≠ .gt) : bytesCompare a c = .lt := by
  rcases bytesCompare_not_gt h2 with h | h
  · exact bytesCompare_lt_trans h1 h
  · rwa [h] at h1

theorem bytesCompare_lt_irrefl {a b : List Nat} (h : bytesCompare a b = .lt) : a ≠ b := by
  intro he
  subst he
  rw [bytesCompare_eq_iff.mpr rfl] at h
  cases h

/-! ## Encoded cell regions -/

theorem length_encCell (c : Cell) : (encCell c).length = cellSize c := by
  simp only [encCell, cellSize, List.length_append, length_u32le]
  omega

theorem encCells_append (cs₁ cs₂ : List Cell) :
    encCells (cs₁ ++ cs₂) = encCells cs₁ ++ encCells cs₂ := by
  induction cs₁ with
  | nil => rfl
  | cons c cs ih =>
    show encCell c ++ encCells (cs ++ cs₂) = encCell c ++ encCells cs ++ encCells cs₂
    rw [ih, List.append_assoc]

theorem sizeCells_append (cs₁ cs₂ : List Cell) :
    sizeCells (cs₁ ++ cs₂) = sizeCells cs₁ + sizeCells cs₂ := by
  induction cs₁ with
  | nil => show sizeCells cs₂ = 0 + sizeCells cs₂; omega
  | cons c cs ih =>
    show cellSize c + sizeCells (cs ++ cs₂) = cellSize c + sizeCells cs + sizeCells cs₂
    rw [ih]; omega

theorem length_encCells (cs : List Cell) : (encCells cs).length = sizeCells cs := by
  induction cs with
  | nil => rfl
  | cons c cs ih => simp only [encCells, sizeCells, List.length_append, length_encCell, ih]

theorem sizeCells_ge (cs : List Cell) : 8 * cs.length ≤ sizeCells cs := by
  induction cs with
  | nil => simp [sizeCells]
  | cons c cs ih => simp only [sizeCells, List.length_cons, cellSize]; omega

theorem regionEnc_cons {d : List Nat} {off : Nat} {c : Cell} {cs : List Cell}
    (h : regionEnc d off (c :: cs)) :
    readU32 d off = c.key.length ∧
    sliceB d (off + 4) c.key.length = c.key ∧
    readU32 d (off + 4 + c.key.length) = c.val.length ∧
    sliceB d (off + 8 + c.key.length) c.val.length = c.val ∧
    regionEnc d (off + cellSize c) cs := by
  obtain ⟨hs, hb, hsm⟩ := h
  have hkc := hsm c (List.mem_cons_self c cs)
  have hsz : sizeCells (c :: cs) = cellSize c + sizeCells cs := rfl
  rw [hsz] at hs hb
  rw [sliceB_split] at hs
  have hcell : sliceB d off (cellSize c) = encCell c ∧
      sliceB d (off + cellSize c) (sizeCells cs) = encCells cs := by
    have hl : (sliceB d off (cellSize c)).length = (encCell c).length := by
      rw [length_sliceB_of_le (by omega), length_encCell]
    exact List.append_inj (by rw [hs]; rfl) hl
  obtain ⟨h1, h2⟩ := hcell
  have hsplit : sliceB d off (cellSize c) =
      sliceB d off 4 ++ sliceB d (off + 4) c.key.length ++
      sliceB d (off + 4 + c.key.length) 4 ++ sliceB d (off + 8 + c.key.length) c.val.length := by
    have e1 : cellSize c = 4 + c.key.length + 4 + c.val.length := by simp [cellSize]; omega
    rw [e1, sliceB_split d off (4 + c.key.length + 4) c.val.length,
      sliceB_split d off (4 + c.key.length) 4, sliceB_split d off 4 c.key.length]
    have : off + (4 + c.key.length) = off + 4 + c.key.length := by omega
    rw [this]
    have : off + (4 + c.key.length + 4) = off + 8 + c.key.length := by omega
    rw [this]
  rw [hsplit] at h1
  have hcb : off + 8 + c.key.length + c.val.length + sizeCells cs ≤ d.length := by
    simp only [cellSize] at hb
    omega
  have hpieces : sliceB d off 4 = u32le c.key.length ∧
      sliceB d (off + 4) c.key.length = c.key ∧
      sliceB d (off + 4 + c.key.length) 4 = u32le c.val.length ∧
      sliceB d (off + 8 + c.key.length) c.val.length = c.val := by
    obtain ⟨p1, q1⟩ := List.append_inj h1 (by
      simp only [List.length_append, length_u32le]
      rw [length_sliceB_of_le (by omega), length_sliceB_of_le (by omega),
        length_sliceB_of_le (by omega)])
    obtain ⟨p2, q2⟩ := List.append_inj p1 (by
      simp only [List.length_append, length_u32le]
      rw [length_sliceB_of_le (by omega), length_sliceB_of_le (by omega)])
    obtain ⟨p3, q3⟩ := List.append_inj p2 (by
      rw [length_sliceB_of_le (by omega), length_u32le])
    exact ⟨p3, q3, q2, q1⟩
  obtain ⟨w1, w2, w3, w4⟩ := hpieces
  refine ⟨?_, w2, ?_, w4, h2, by omega, fun c' hc' => hsm c' (List.mem_cons_of_mem c hc')⟩
  · rw [readU32, w1, leUint32_u32le hkc.1]
  · rw [readU32, w3, leUint32_u32le hkc.2]

theorem regionEnc_split {d : List Nat} {off : Nat} {cs₁ cs₂ : List Cell}
    (h : regionEnc d off (cs₁ ++ cs₂)) :
    regionEnc d off cs₁ ∧ regionEnc d (off + sizeCells cs₁) cs₂ := by
  obtain ⟨hs, hb, hsm⟩ := h
  rw [sizeCells_append] at hs hb
  rw [sliceB_split, encCells_append] at hs
  have hl : (sliceB d off (sizeCells cs₁)).length = (encCells cs₁).length := by
    rw [length_sliceB_of_le (by omega), length_encCells]
  obtain ⟨h1, h2⟩ := List.append_inj hs hl
  exact ⟨⟨h1, by omega, fun c hc => hsm c (List.mem_append_left _ hc)⟩,
    ⟨h2, by omega, fun c hc => hsm c (List.mem_append_right _ hc)⟩⟩

theorem iterEnd_spec {d : List Nat} {cs : List Cell} : ∀ {off : Nat},
    regionEnc d off cs → iterEnd d cs.length off = off + sizeCells cs := by
  induction cs with
  | nil => intro off _; simp [iterEnd, sizeCells]
  | cons c cs ih =>
    intro off h
    obtain ⟨h1, _, h3, _, h5⟩ := regionEnc_cons h
    simp only [List.length_cons, iterEnd]
    rw [h1, h3]
    have e : off + 8 + c.key.length + c.val.length = off + cellSize c := by
      simp only [cellSize]; omega
    rw [e, ih h5]
    simp only [sizeCells]
    omega

/-! ## Consequences of `Represents` -/

theorem represents_size_le {d : List Nat} {cs : List Cell} (h : Represents d cs) :
    10 + sizeCells cs ≤ 4096 := by
  have := h.2.2.2.2.1
  rw [h.1] at this
  exact this

theorem represents_length_lt {d : List Nat} {cs : List Cell} (h : Represents d cs) :
    cs.length < 4294967296 := by
  have h1 := represents_size_le h
  have h2 := sizeCells_ge cs
  omega

theorem getFreeSpace_rep {d : List Nat} {cs : List Cell} (h : Represents d cs) :
    getFreeSpace d = 4086 - sizeCells cs := by
  have hs := represents_size_le h
  rw [getFreeSpace, h.2.2.1, iterEnd_spec h.2.2.2]
  show 4096 - (10 + sizeCells cs) = 4086 - sizeCells cs
  omega

theorem getFreeSpace_newLeafPageData : getFreeSpace newLeafPageData = 4086 :=
  getFreeSpace_rep represents_newLeafPageData

/-! ## Loop specifications -/

theorem notGtKey_false_iff {k : List Nat} {c : Cell} :
    notGtKey k c = false ↔ bytesCompare c.key k = .gt := by
  rcases h : bytesCompare c.key k <;> simp [notGtKey, h]

theorem notGtKey_true_iff {k : List Nat} {c : Cell} :
    notGtKey k c = true ↔ bytesCompare c.key k ≠ .gt := by
  rcases h : bytesCompare c.key k <;> simp [notGtKey, h]

theorem findCellLoop_spec {d k : List Nat} {cs : List Cell} : ∀ {off : Nat},
    regionEnc d off cs → findCellLoop d k cs.length off = findVal cs k := by
  induction cs with
  | nil => intro off _; rfl
  | cons c cs ih =>
    intro off h
    obtain ⟨h1, h2, h3, h4, h5⟩ := regionEnc_cons h
    simp only [List.length_cons, findCellLoop, findVal]
    rw [h1, h2, h3, h4]
    by_cases he : k = c.key
    · rw [if_pos he, if_pos he]
    · rw [if_neg he, if_neg he]
      have e : off + 8 + c.key.length + c.val.length = off + cellSize c := by
        simp only [cellSize]; omega
      rw [e, ih h5]

theorem findInsertLoop_spec {d k : List Nat} {cs : List Cell} : ∀ {off : Nat},
    regionEnc d off cs →
    findInsertLoop d k cs.length off =
      if cs.dropWhile (notGtKey k) = [] then none
      else some (off + sizeCells (cs.takeWhile (notGtKey k))) := by
  induction cs with
  | nil => intro off _; rfl
  | cons c cs ih =>
    intro off h
    obtain ⟨h1, h2, _, _, h5⟩ := regionEnc_cons h
    simp only [List.length_cons, findInsertLoop]
    rw [h1, h2]
    by_cases hgt : bytesCompare c.key k = Ordering.gt
    · rw [if_pos hgt]
      have hng : ¬ notGtKey k c = true := by
        rw [Bool.not_eq_true, notGtKey_false_iff]
        exact hgt
      rw [List.dropWhile_cons_of_neg hng, List.takeWhile_cons_of_neg hng]
      rw [if_neg (List.cons_ne_nil c cs)]
      rfl
    · rw [if_neg hgt]
      have hng : notGtKey k c = true := notGtKey_true_iff.mpr hgt
      have e : off + 8 + c.key.length + readU32 d (off + 4 + c.key.length) = off + cellSize c := by
        rw [(regionEnc_cons h).2.2.1]
        simp only [cellSize]
        omega
      rw [e, ih h5]
      rw [List.dropWhile_cons_of_pos hng, List.takeWhile_cons_of_pos hng]
      by_cases hd : cs.dropWhile (notGtKey k) = []
      · rw [if_pos hd, if_pos hd]
      · rw [if_neg hd, if_neg hd]
        simp only [sizeCells, Option.some.injEq]
        omega

theorem cellsOfBuf_spec {d : List Nat} {cs : List Cell} : ∀ {off : Nat},
    regionEnc d off cs → cellsOfBuf d cs.length off = cellsWithOffsets cs off := by
  induction cs with
  | nil => intro off _; rfl
  | cons c cs ih =>
    intro off h
    obtain ⟨h1, h2, h3, h4, h5⟩ := regionEnc_cons h
    simp only [List.length_cons, cellsOfBuf, cellsWithOffsets]
    rw [h1, h2, h3, h4]
    have e : off + 8 + c.key.length + c.val.length = off + cellSize c := by
      simp only [cellSize]; omega
    rw [e, ih h5]

/-! ## Correctness of `addCell` -/

theorem writeBytes_nil (d : List Nat) (a : Nat) : writeBytes d a [] = d := by
  simp only [writeBytes, List.length_nil, Nat.add_zero, List.nil_append, List.append_nil,
    List.take_append_drop]

theorem writeBytes_merge {d s₁ s₂ : List Nat} {a : Nat} (h : a ≤ d.length) :
    writeBytes (writeBytes d a s₁) (a + s₁.length) s₂ = writeBytes d a (s₁ ++ s₂) := by
  have hl : (d.take a ++ s₁).length = a + s₁.length := by
    simp only [List.length_append, List.length_take]
    omega
  simp only [writeBytes, ← List.append_assoc]
  rw [List.take_left' hl]
  have ha : a + s₁.length + s₂.length = (d.take a ++ s₁).length + s₂.length := by rw [hl]
  rw [ha, List.drop_append, List.drop_drop]
  simp only [List.length_append, List.append_assoc, Nat.add_assoc]

theorem addCell_ok {d k v : List Nat} {cs : List Cell} (hrep : Represents d cs)
    (hfit : k.length + v.length + 8 ≤ getFreeSpace d) :
    (addCell d k v).1 = none ∧ Represents (addCell d k v).2 (insertCell cs k v) := by
  obtain ⟨hlen, hkind, hnum, hreg⟩ := hrep
  have hsz : 10 + sizeCells cs ≤ 4096 := by
    have := hreg.2.1
    rw [hlen] at this
    exact this
  have hfree : getFreeSpace d = 4086 - sizeCells cs := getFreeSpace_rep ⟨hlen, hkind, hnum, hreg⟩
  set cs₁ := cs.takeWhile (notGtKey k) with hcs₁
  set cs₂ := cs.dropWhile (notGtKey k) with hcs₂
  have hsplitcs : cs₁ ++ cs₂ = cs := List.takeWhile_append_dropWhile (notGtKey k) cs
  have hreg' : regionEnc d 10 (cs₁ ++ cs₂) := by rwa [hsplitcs]
  obtain ⟨hreg1, hreg2⟩ := regionEnc_split hreg'
  have hscs : sizeCells cs = sizeCells cs₁ + sizeCells cs₂ := by
    rw [← hsplitcs, sizeCells_append]
  -- abbreviations
  have hfit' : k.length + v.length + 8 ≤ 4086 - sizeCells cs := by rwa [hfree] at hfit
  have hreq : k.length + v.length + 8 < 4294967296 := by omega
  have hw32req : w32 (k.length + v.length + 8) = k.length + v.length + 8 := w32_eq hreq
  have hw32k : w32 k.length = k.length := w32_eq (by omega)
  have hw32v : w32 v.length = v.length := w32_eq (by omega)
  have hguard : ¬ (getFreeSpace d < w32 (k.length + v.length + 8)) := by
    rw [hw32req, hfree]
    omega
  -- the insertion offset
  have hloop : (findInsertLoop d k (getNumCells d) 10).getD (pageSize - getFreeSpace d) =
      10 + sizeCells cs₁ := by
    rw [hnum, findInsertLoop_spec hreg]
    by_cases hd : cs₂ = []
    · rw [if_pos hd, Option.getD_none, hfree]
      have : cs₁ = cs := by rw [← hsplitcs, hd, List.append_nil]
      rw [this]
      show 4096 - (4086 - sizeCells cs) = 10 + sizeCells cs
      omega
    · rw [if_neg hd, Option.getD_some]
  have hrhsz : pageSize - (10 + sizeCells cs₁) - getFreeSpace d = sizeCells cs₂ := by
    rw [hfree]
    show 4096 - (10 + sizeCells cs₁) - (4086 - sizeCells cs) = sizeCells cs₂
    omega
  have hrhs : sliceB d (10 + sizeCells cs₁) (sizeCells cs₂) = encCells cs₂ := hreg2.1
  -- buffers
  have hbound1 : 10 + sizeCells cs₁ + (k.length + v.length + 8) + sizeCells cs₂ ≤ 4096 := by
    omega
  have hd1len : (writeBytes d (10 + sizeCells cs₁ + (k.length + v.length + 8)) (encCells cs₂)).length
      = 4096 := by
    rw [length_writeBytes (by rw [length_encCells, hlen]; omega), hlen]
  have hshift : (if pageSize - (10 + sizeCells cs₁) - getFreeSpace d > 0 then
      writeBytes d (10 + sizeCells cs₁ + (k.length + v.length + 8))
        (sliceB d (10 + sizeCells cs₁) (pageSize - (10 + sizeCells cs₁) - getFreeSpace d))
      else d) =
      writeBytes d (10 + sizeCells cs₁ + (k.length + v.length + 8)) (encCells cs₂) := by
    rcases Nat.eq_zero_or_pos (sizeCells cs₂) with hz | hp
    · rw [if_neg (by rw [hrhsz, hz]; omega)]
      have : encCells cs₂ = [] := by
        have := length_encCells cs₂
        rw [hz] at this
        exact List.length_eq_zero.mp this
      rw [this, writeBytes_nil]
    · rw [if_pos (by rw [hrhsz]; omega), hrhsz, hrhs]
  have hd1le10 : 10 + sizeCells cs₁ ≤
      (writeBytes d (10 + sizeCells cs₁ + (k.length + v.length + 8)) (encCells cs₂)).length := by
    rw [hd1len]
    omega
  have hnD1 : ∀ src : List Nat,
      getNumCells (writeBytes
        (writeBytes d (10 + sizeCells cs₁ + (k.length + v.length + 8)) (encCells cs₂))
        (10 + sizeCells cs₁) src) = cs.length := by
    intro src
    unfold getNumCells
    rw [readU32_writeBytes_left (by omega) hd1le10,
      readU32_writeBytes_left (by omega) (by rw [hlen]; omega)]
    exact hnum
  have hmain : addCell d k v = (none,
      setNumCells (writeBytes
        (writeBytes d (10 + sizeCells cs₁ + (k.length + v.length + 8)) (encCells cs₂))
        (10 + sizeCells cs₁) (encCell ⟨k, v⟩)) (cs.length + 1)) := by
    simp only [addCell]
    rw [if_neg hguard, hw32req, hw32k, hw32v, hloop, hshift]
    simp only [List.take_length]
    have e1 : writeBytes
        (writeBytes (writeBytes d (10 + sizeCells cs₁ + (k.length + v.length + 8)) (encCells cs₂))
          (10 + sizeCells cs₁) (u32le k.length)) (10 + sizeCells cs₁ + 4) k =
        writeBytes (writeBytes d (10 + sizeCells cs₁ + (k.length + v.length + 8)) (encCells cs₂))
          (10 + sizeCells cs₁) (u32le k.length ++ k) :=
      writeBytes_merge hd1le10
    have e2 := @writeBytes_merge
      (writeBytes d (10 + sizeCells cs₁ + (k.length + v.length + 8)) (encCells cs₂))
      (u32le k.length ++ k) (u32le v.length) (10 + sizeCells cs₁) hd1le10
    rw [List.length_append, length_u32le] at e2
    rw [show 10 + sizeCells cs₁ + (4 + k.length) = 10 + sizeCells cs₁ + 4 + k.length by omega] at e2
    have e3 := @writeBytes_merge
      (writeBytes d (10 + sizeCells cs₁ + (k.length + v.length + 8)) (encCells cs₂))
      ((u32le k.length ++ k) ++ u32le v.length) v (10 + sizeCells cs₁) hd1le10
    rw [List.length_append, List.length_append, length_u32le, length_u32le] at e3
    rw [show 10 + sizeCells cs₁ + (4 + k.length + 4) = 10 + sizeCells cs₁ + 8 + k.length by omega]
      at e3
    rw [e1, e2, e3, hnD1]
    rfl
  rw [hmain]
  have hins : insertCell cs k v = cs₁ ++ ⟨k, v⟩ :: cs₂ := rfl
  have hcell : cellSize ⟨k, v⟩ = 8 + k.length + v.length := rfl
  have hlen1 : (cs₁ ++ cs₂).length = cs.length := by rw [hsplitcs]
  have hnlt : cs.length + 1 < 4294967296 := by
    have := sizeCells_ge cs
    omega
  have hszins : sizeCells (insertCell cs k v) =
      sizeCells cs₁ + (cellSize ⟨k, v⟩ + sizeCells cs₂) := by
    rw [hins, sizeCells_append]
    rfl
  have hd5len : (writeBytes
      (writeBytes d (10 + sizeCells cs₁ + (k.length + v.length + 8)) (encCells cs₂))
      (10 + sizeCells cs₁) (encCell ⟨k, v⟩)).length = 4096 := by
    rw [length_writeBytes, hd1len]
    rw [length_encCell, hd1len, hcell]
    omega
  have hd6len : (setNumCells (writeBytes
      (writeBytes d (10 + sizeCells cs₁ + (k.length + v.length + 8)) (encCells cs₂))
      (10 + sizeCells cs₁) (encCell ⟨k, v⟩)) (cs.length + 1)).length = 4096 := by
    rw [setNumCells, length_writeBytes, hd5len]
    rw [length_u32le, hd5len]
    omega
  have hd5le : (10 : Nat) ≤ (writeBytes
      (writeBytes d (10 + sizeCells cs₁ + (k.length + v.length + 8)) (encCells cs₂))
      (10 + sizeCells cs₁) (encCell ⟨k, v⟩)).length := by
    rw [hd5len]
    omega
  refine ⟨rfl, hd6len, ?_, ?_, ?_, ?_⟩
  · -- kind byte is untouched
    rw [setNumCells, getKind_writeBytes (by omega) (by rw [hd5len]; omega),
      getKind_writeBytes (by omega) hd1le10,
      getKind_writeBytes (by omega) (by rw [hlen]; omega)]
    exact hkind
  · -- numCells was incremented
    rw [getNumCells_setNumCells hd5le hnlt, hins]
    simp only [List.length_append, List.length_cons]
    have : cs₁.length + cs₂.length = cs.length := by
      rw [← hlen1, List.length_append]
    omega
  · -- the cell region encodes the inserted list
    rw [hszins, hins, encCells_append]
    show sliceB _ 10 (sizeCells cs₁ + (cellSize ⟨k, v⟩ + sizeCells cs₂)) = _
    rw [sliceB_split _ 10 (sizeCells cs₁) (cellSize ⟨k, v⟩ + sizeCells cs₂),
      sliceB_split _ (10 + sizeCells cs₁) (cellSize ⟨k, v⟩) (sizeCells cs₂)]
    have hA : sliceB (setNumCells (writeBytes
        (writeBytes d (10 + sizeCells cs₁ + (k.length + v.length + 8)) (encCells cs₂))
        (10 + sizeCells cs₁) (encCell ⟨k, v⟩)) (cs.length + 1)) 10 (sizeCells cs₁) =
        encCells cs₁ := by
      rw [setNumCells, sliceB_writeBytes_right (by rw [length_u32le]) (by rw [hd5len]; omega),
        sliceB_writeBytes_left (by omega) hd1le10,
        sliceB_writeBytes_left (by omega) (by rw [hlen]; omega)]
      exact hreg1.1
    have hB : sliceB (setNumCells (writeBytes
        (writeBytes d (10 + sizeCells cs₁ + (k.length + v.length + 8)) (encCells cs₂))
        (10 + sizeCells cs₁) (encCell ⟨k, v⟩)) (cs.length + 1)) (10 + sizeCells cs₁)
        (cellSize ⟨k, v⟩) = encCell ⟨k, v⟩ := by
      rw [setNumCells, sliceB_writeBytes_right (by rw [length_u32le]; omega)
        (by rw [hd5len]; omega)]
      rw [← length_encCell]
      exact sliceB_writeBytes_self hd1le10 _
    have hC : sliceB (setNumCells (writeBytes
        (writeBytes d (10 + sizeCells cs₁ + (k.length + v.length + 8)) (encCells cs₂))
        (10 + sizeCells cs₁) (encCell ⟨k, v⟩)) (cs.length + 1))
        (10 + sizeCells cs₁ + cellSize ⟨k, v⟩) (sizeCells cs₂) = encCells cs₂ := by
      rw [setNumCells, sliceB_writeBytes_right (by rw [length_u32le]; omega)
        (by rw [hd5len]; omega)]
      rw [sliceB_writeBytes_right (by rw [length_encCell]) hd1le10]
      rw [show 10 + sizeCells cs₁ + cellSize ⟨k, v⟩ =
        10 + sizeCells cs₁ + (k.length + v.length + 8) from by rw [hcell]; omega]
      rw [← length_encCells cs₂]
      exact sliceB_writeBytes_self (by rw [hlen]; omega) _
    rw [hA, hB, hC]
    rfl
  · constructor
    · rw [hd6len, hszins, hcell]
      omega
    · intro c hc
      rw [hins] at hc
      rcases List.mem_append.mp hc with hc1 | hc2
      · exact hreg.2.2 c (by rw [← hsplitcs]; exact List.mem_append_left _ hc1)
      · rcases List.mem_cons.mp hc2 with he | hc2'
        · subst he
          exact ⟨by show k.length < 4294967296; omega, by show v.length < 4294967296; omega⟩
        · exact hreg.2.2 c (by rw [← hsplitcs]; exact List.mem_append_right _ hc2')

/-! ## The failure branch of `addCell` -/

theorem addCell_fail {d k v : List Nat} (h : getFreeSpace d < w32 (k.length + v.length + 8)) :
    addCell d k v =
      (some (.notEnoughSpace (w32 (k.length + v.length + 8)) (getFreeSpace d)), d) := by
  simp only [addCell]
  rw [if_pos h]

theorem addCell_fst_none_le {d k v : List Nat} (h : (addCell d k v).1 = none) :
    w32 (k.length + v.length + 8) ≤ getFreeSpace d := by
  by_contra hc
  rw [addCell_fail (by omega)] at h
  cases h

/-! ## Abstract insertion order theory -/

theorem keyLe_of_keyLt {a b : Cell} (h : keyLt a b) : keyLe a b := by
  rw [keyLe, h]
  simp

theorem findVal_eq_none_iff {cs : List Cell} {k : List Nat} :
    findVal cs k = none ↔ k ∉ keysOf cs := by
  induction cs with
  | nil => simp [findVal, keysOf]
  | cons c cs ih =>
    simp only [findVal, keysOf, List.map_cons, List.mem_cons]
    by_cases he : k = c.key
    · rw [if_pos he]
      simp [he]
    · rw [if_neg he]
      rw [ih]
      simp [keysOf, he]

theorem findVal_append_not_mem {cs₁ cs₂ : List Cell} {k : List Nat} (h : k ∉ keysOf cs₁) :
    findVal (cs₁ ++ cs₂) k = findVal cs₂ k := by
  induction cs₁ with
  | nil => rfl
  | cons c cs ih =>
    simp only [keysOf, List.map_cons, List.mem_cons, not_or] at h
    simp only [List.cons_append, findVal, if_neg h.1]
    exact ih (by simpa [keysOf] using h.2)

theorem findVal_append_mem {cs₁ cs₂ : List Cell} {k : List Nat} (h : k ∈ keysOf cs₁) :
    findVal (cs₁ ++ cs₂) k = findVal cs₁ k := by
  induction cs₁ with
  | nil => cases h
  | cons c cs ih =>
    by_cases he : k = c.key
    · simp only [List.cons_append, findVal, if_pos he]
    · simp only [keysOf, List.map_cons, List.mem_cons] at h
      rcases h with h | h
      · exact absurd h he
      · simp only [List.cons_append, findVal, if_neg he]
        exact ih h

theorem keysOf_takeWhile_not_mem {cs : List Cell} {k : List Nat} (h : k ∉ keysOf cs) :
    k ∉ keysOf (cs.takeWhile (notGtKey k)) := by
  intro hm
  rcases List.mem_map.mp hm with ⟨c, hc, he⟩
  exact h (List.mem_map.mpr ⟨c, List.takeWhile_subset _ hc, he⟩)

theorem findVal_insertCell_not_mem {cs : List Cell} {k v : List Nat} (h : k ∉ keysOf cs) :
    findVal (insertCell cs k v) k = some v := by
  rw [insertCell, findVal_append_not_mem (keysOf_takeWhile_not_mem h)]
  simp [findVal]

theorem mem_keysOf_insertCell {cs : List Cell} {k v x : List Nat} :
    x ∈ keysOf (insertCell cs k v) ↔ x = k ∨ x ∈ keysOf cs := by
  simp only [insertCell, keysOf, List.map_append, List.map_cons, List.mem_append, List.mem_cons]
  constructor
  · rintro (h | h | h)
    · refine Or.inr ?_
      rcases List.mem_map.mp h with ⟨c, hc, he⟩
      exact List.mem_map.mpr ⟨c, List.takeWhile_subset _ hc, he⟩
    · exact Or.inl h
    · refine Or.inr ?_
      rcases List.mem_map.mp h with ⟨c, hc, he⟩
      exact List.mem_map.mpr ⟨c, List.dropWhile_subset _ hc, he⟩
  · rintro (h | h)
    · exact Or.inr (Or.inl h)
    · rcases List.mem_map.mp h with ⟨c, hc, he⟩
      rw [← List.takeWhile_append_dropWhile (notGtKey k) cs] at hc
      rcases List.mem_append.mp hc with hc | hc
      · exact Or.inl (List.mem_map.mpr ⟨c, hc, he⟩)
      · exact Or.inr (Or.inr (List.mem_map.mpr ⟨c, hc, he⟩))

theorem dropWhile_head_gt {cs : List Cell} {k : List Nat} {c : Cell} {t : List Cell}
    (hd : cs.dropWhile (notGtKey k) = c :: t) : bytesCompare c.key k = .gt := by
  have h := List.head?_dropWhile_not (notGtKey k) cs
  rw [hd] at h
  simp only [List.head?_cons] at h
  exact notGtKey_false_iff.mp h

/-- Every cell of the dropped suffix is strictly greater than the new key,
provided the page was sorted (non-strictly). -/
theorem dropWhile_all_gt {cs : List Cell} {k : List Nat} (hs : cs.Pairwise keyLe) :
    ∀ c ∈ cs.dropWhile (notGtKey k), bytesCompare k c.key = .lt := by
  rcases hd : cs.dropWhile (notGtKey k) with _ | ⟨c₀, t⟩
  · intro c hc
    cases hc
  · intro c hc
    have hgt : bytesCompare c₀.key k = .gt := dropWhile_head_gt hd
    have hlt : bytesCompare k c₀.key = .lt := bytesCompare_swap.mpr hgt
    rcases List.mem_cons.mp hc with he | ht
    · rwa [he]
    · have hsuffix : (c₀ :: t).Pairwise keyLe := by
        rw [← hd]
        exact hs.sublist (List.dropWhile_sublist _)
      have hle : keyLe c₀ c := (List.pairwise_cons.mp hsuffix).1 c ht
      exact bytesCompare_lt_of_lt_of_not_gt hlt hle

theorem insertCell_pairwise_le {cs : List Cell} {k v : List Nat} (hs : cs.Pairwise keyLe) :
    (insertCell cs k v).Pairwise keyLe := by
  rw [insertCell, List.pairwise_append]
  have hsplit := List.takeWhile_append_dropWhile (notGtKey k) cs
  refine ⟨hs.sublist (List.takeWhile_sublist _), ?_, ?_⟩
  · rw [List.pairwise_cons]
    refine ⟨fun b hb => ?_, hs.sublist (List.dropWhile_sublist _)⟩
    exact keyLe_of_keyLt (dropWhile_all_gt hs b hb)
  · intro a ha b hb
    rcases List.mem_cons.mp hb with he | hb'
    · subst he
      exact notGtKey_true_iff.mp (List.mem_takeWhile_imp ha)
    · rw [← hsplit] at hs
      rcases List.pairwise_append.mp hs with ⟨_, _, hcross⟩
      exact hcross a ha b hb'

theorem insertCell_pairwise_lt {cs : List Cell} {k v : List Nat} (hs : cs.Pairwise keyLt)
    (hnm : k ∉ keysOf cs) : (insertCell cs k v).Pairwise keyLt := by
  rw [insertCell, List.pairwise_append]
  have hsplit := List.takeWhile_append_dropWhile (notGtKey k) cs
  have hle : cs.Pairwise keyLe := hs.imp keyLe_of_keyLt
  refine ⟨hs.sublist (List.takeWhile_sublist _), ?_, ?_⟩
  · rw [List.pairwise_cons]
    refine ⟨fun b hb => dropWhile_all_gt hle b hb, hs.sublist (List.dropWhile_sublist _)⟩
  · intro a ha b hb
    rcases List.mem_cons.mp hb with he | hb'
    · subst he
      have h1 : bytesCompare a.key k ≠ .gt := notGtKey_true_iff.mp (List.mem_takeWhile_imp ha)
      have h2 : a.key ≠ k := by
        intro he'
        exact hnm (List.mem_map.mpr ⟨a, List.takeWhile_subset _ ha, he'⟩)
      show bytesCompare a.key k = .lt
      rcases bytesCompare_not_gt h1 with h | h
      · exact h
      · exact absurd h h2
    · rw [← hsplit] at hs
      rcases List.pairwise_append.mp hs with ⟨_, _, hcross⟩
      exact hcross a ha b hb'

theorem mem_keysOf_takeWhile_of_mem {cs : List Cell} {k : List Nat} (hs : cs.Pairwise keyLe)
    (hm : k ∈ keysOf cs) : k ∈ keysOf (cs.takeWhile (notGtKey k)) := by
  have hsplit := List.takeWhile_append_dropWhile (notGtKey k) cs
  rw [← hsplit, keysOf, List.map_append] at hm
  rcases List.mem_append.mp hm with h | h
  · exact h
  · exfalso
    rcases List.mem_map.mp h with ⟨c, hc, he⟩
    have := dropWhile_all_gt hs c hc
    rw [he] at this
    exact absurd (bytesCompare_eq_iff.mpr rfl) (by rw [this]; simp)

theorem findVal_insertCell_mem {cs : List Cell} {k v : List Nat} (hs : cs.Pairwise keyLe)
    (hm : k ∈ keysOf cs) : findVal (insertCell cs k v) k = findVal cs k := by
  have hk1 := mem_keysOf_takeWhile_of_mem hs hm
  rw [insertCell, findVal_append_mem hk1]
  conv_rhs => rw [← List.takeWhile_append_dropWhile (notGtKey k) cs]
  rw [findVal_append_mem hk1]

/-! ## Folding sequences of insertions -/

theorem addCellsFold_spec : ∀ {l : List (List Nat × List Nat)} {d d' : List Nat} {cs : List Cell},
    Represents d cs →
    (∀ kv ∈ l, kv.1.length + kv.2.length + 8 < 4294967296) →
    addCellsFold d l = some d' →
    Represents d' (insertFold cs l) := by
  intro l
  induction l with
  | nil =>
    intro d d' cs hrep _ hf
    cases hf
    exact hrep
  | cons kv rest ih =>
    intro d d' cs hrep hsmall hf
    obtain ⟨k, v⟩ := kv
    rcases ha : addCell d k v with ⟨e, d₁⟩
    rcases e with _ | e
    · have hfst : (addCell d k v).1 = none := by rw [ha]
      have hle := addCell_fst_none_le hfst
      rw [w32_eq (hsmall (k, v) (List.mem_cons_self _ _))] at hle
      obtain ⟨h1, h2⟩ := addCell_ok hrep hle
      rw [ha] at h2
      have hf' : addCellsFold d₁ rest = some d' := by
        rw [addCellsFold, ha] at hf
        exact hf
      have := ih h2 (fun kv hkv => hsmall kv (List.mem_cons_of_mem _ hkv)) hf'
      simpa [insertFold] using this
    · rw [addCellsFold, ha] at hf
      cases hf

theorem insertFold_pairwise_lt :
    ∀ {l : List (List Nat × List Nat)} {cs : List Cell},
    cs.Pairwise keyLt →
    (l.map Prod.fst).Pairwise (fun a b => a ≠ b) →
    (∀ kv ∈ l, kv.1 ∉ keysOf cs) →
    (insertFold cs l).Pairwise keyLt := by
  intro l
  induction l with
  | nil => intro cs hs _ _; exact hs
  | cons kv rest ih =>
    intro cs hs hdist hdisj
    obtain ⟨k, v⟩ := kv
    simp only [List.map_cons, List.pairwise_cons] at hdist
    have hnotin : k ∉ keysOf cs := hdisj (k, v) (List.mem_cons_self _ _)
    have hins := @insertCell_pairwise_lt cs k v hs hnotin
    refine ih hins hdist.2 ?_
    intro kv' hkv'
    rw [mem_keysOf_insertCell]
    push_neg
    constructor
    · exact Ne.symm (hdist.1 kv'.1 (List.mem_map.mpr ⟨kv', hkv', rfl⟩))
    · exact hdisj kv' (List.mem_cons_of_mem _ hkv')

/-! ## Offsets of iterated cells -/

theorem cellsWithOffsets_map_fst (cs : List Cell) (off : Nat) :
    (cellsWithOffsets cs off).map (fun e => e.1) = keysOf cs := by
  induction cs generalizing off with
  | nil => rfl
  | cons c cs ih => simp only [cellsWithOffsets, List.map_cons, keysOf, ih]

theorem iterCellsList_rep {d : List Nat} {cs : List Cell} (h : Represents d cs) :
    iterCellsList d = cellsWithOffsets cs 10 := by
  rw [iterCellsList, h.2.2.1, cellsOfBuf_spec h.2.2.2]

theorem cellsWithOffsets_chain (cs : List Cell) (off : Nat) :
    List.Chain' (fun e₁ e₂ : List Nat × List Nat × Nat =>
      e₂.2.2 = e₁.2.2 + 8 + e₁.1.length + e₁.2.1.length) (cellsWithOffsets cs off) := by
  induction cs generalizing off with
  | nil => exact List.chain'_nil
  | cons c cs ih =>
    cases cs with
    | nil => exact List.chain'_singleton _
    | cons c' cs' =>
      rw [cellsWithOffsets, cellsWithOffsets, List.chain'_cons]
      refine ⟨?_, by rw [← cellsWithOffsets]; exact ih (off + cellSize c)⟩
      show off + cellSize c = off + 8 + c.key.length + c.val.length
      simp only [cellSize]
      omega

theorem cellsWithOffsets_head {cs : List Cell} {off : Nat} {e : List Nat × List Nat × Nat}
    (h : (cellsWithOffsets cs off).head? = some e) : e.2.2 = off := by
  cases cs with
  | nil => cases h
  | cons c cs =>
    rw [cellsWithOffsets, List.head?_cons, Option.some.injEq] at h
    rw [← h]

/-! ## `findCell` against a well-formed page -/

theorem findCell_rep {d k : List Nat} {cs : List Cell} (h : Represents d cs) :
    findCell d k = findVal cs k := by
  rw [findCell, h.2.2.1, findCellLoop_spec h.2.2.2]

/-! ## Buffer pool lemmas -/

theorem length_fileWriteAt (fd src : List Nat) (off : Nat) :
    (fileWriteAt fd off src).length = max fd.length (off + src.length) := by
  simp only [fileWriteAt, List.length_append, List.length_take, List.length_replicate,
    List.length_drop]
  omega

theorem sliceB_fileWriteAt_front {fd src : List Nat} {off n : Nat}
    (h1 : n ≤ off) (h2 : n ≤ fd.length) :
    sliceB (fileWriteAt fd off src) 0 n = sliceB fd 0 n := by
  simp only [fileWriteAt, sliceB, List.drop_zero]
  rw [List.take_append_of_le_length
      (by simp only [List.length_append, List.length_take, List.length_replicate]; omega),
    List.take_append_of_le_length
      (by simp only [List.length_append, List.length_take, List.length_replicate]; omega),
    List.take_append_of_le_length (by simp only [List.length_take]; omega),
    List.take_take, Nat.min_eq_left h1]

theorem fileWriteAt_zero (fd src : List Nat) :
    fileWriteAt fd 0 src = src ++ fd.drop src.length := by
  simp only [fileWriteAt, List.take_zero, Nat.zero_sub, List.replicate_zero, List.nil_append,
    Nat.zero_add]

theorem sliceB_fileWriteAt_zero (fd src : List Nat) :
    sliceB (fileWriteAt fd 0 src) 0 src.length = src := by
  rw [fileWriteAt_zero]
  simp only [sliceB, List.drop_zero]
  exact List.take_left' rfl

theorem openDB_eq (fd : List Nat) :
    OpenDB fd = .ok ⟨fileWriteAt fd ((w32 fd.length / pageSize) * pageSize) newLeafPageData,
      List.replicate (w32 fd.length / pageSize) none ++
        [some (⟨w32 fd.length / pageSize, newLeafPageData⟩ : LeafPage)]⟩ := by
  have hget : (List.replicate (w32 fd.length / pageSize) (none : Option LeafPage) ++
      [some (⟨w32 fd.length / pageSize, newLeafPageData⟩ : LeafPage)]).getD (w32 fd.length / pageSize) none =
      some (⟨w32 fd.length / pageSize, newLeafPageData⟩ : LeafPage) := by
    rw [List.getD_eq_getElem?_getD,
      List.getElem?_append_right (by rw [List.length_replicate]),
      List.length_replicate, Nat.sub_self]
    rfl
  have hlt : w32 fd.length / pageSize <
      (List.replicate (w32 fd.length / pageSize) (none : Option LeafPage) ++
        [some (⟨w32 fd.length / pageSize, newLeafPageData⟩ : LeafPage)]).length := by
    simp only [List.length_append, List.length_replicate, List.length_cons, List.length_nil]
    omega
  simp only [OpenDB, addPage, newBufferPool, getPageCount, flushPage]
  rw [if_pos hlt, hget]

theorem flushAll_untouched {slots : List (Option LeafPage)} : ∀ {start : Nat} {fd : List Nat},
    1 ≤ start → 4096 ≤ fd.length →
    (∀ op ∈ slots, ∀ p : LeafPage, op = some p → p.data.length = 4096) →
    sliceB (flushAll slots start fd) 0 4096 = sliceB fd 0 4096 ∧
    4096 ≤ (flushAll slots start fd).length ∧
    (flushAll slots start fd).length ≤ max fd.length ((start + slots.length) * 4096) := by
  induction slots with
  | nil =>
    intro start fd _ h2 _
    exact ⟨rfl, h2, Nat.le_max_left _ _⟩
  | cons op rest ih =>
    intro start fd h1 h2 hp
    cases op with
    | none =>
      simp only [flushAll]
      obtain ⟨e1, e2, e3⟩ :=
        @ih (start + 1) fd (by omega) h2 (fun op hop => hp op (List.mem_cons_of_mem _ hop))
      refine ⟨e1, e2, ?_⟩
      show (flushAll rest (start + 1) fd).length ≤ max fd.length ((start + (rest.length + 1)) * 4096)
      have he : start + 1 + rest.length = start + (rest.length + 1) := by omega
      rw [he] at e3
      exact e3
    | some p =>
      simp only [flushAll]
      have hpl : p.data.length = 4096 := hp (some p) (List.mem_cons_self _ _) p rfl
      have hfd' : 4096 ≤ (fileWriteAt fd (start * pageSize) p.data).length := by
        rw [length_fileWriteAt]
        omega
      obtain ⟨e1, e2, e3⟩ := @ih (start + 1) (fileWriteAt fd (start * pageSize) p.data)
        (by omega) hfd' (fun op hop => hp op (List.mem_cons_of_mem _ hop))
      refine ⟨?_, e2, ?_⟩
      · rw [e1, sliceB_fileWriteAt_front (by simp only [pageSize]; omega) h2]
      · refine le_trans e3 ?_
        rw [length_fileWriteAt, hpl]
        simp only [pageSize, List.length_cons]
        omega

theorem addCellsFold_cons_ok {d d₁ k v : List Nat} {rest : List (List Nat × List Nat)}
    (h : addCell d k v = (none, d₁)) :
    addCellsFold d ((k, v) :: rest) = addCellsFold d₁ rest := by
  show (match addCell d k v with
    | (some _, _) => none
    | (none, d') => addCellsFold d' rest) = addCellsFold d₁ rest
  rw [h]

theorem getPage_cached {bp : BufferPool} {p : LeafPage}
    (h : bp.pages.getD 0 none = some p) : getPage bp 0 = .ok (bp, p) := by
  have hne : bp.pages ≠ [] := by
    intro he
    rw [he] at h
    cases h
  have h0 : ¬ (bp.pages.length ≤ 0) := by
    have := List.length_pos.mpr hne
    omega
  simp only [getPage]
  rw [if_neg h0, h]

theorem getPage_load_leaf {bp : BufferPool} {idx : Nat}
    (hlt : idx < bp.pages.length)
    (hun : bp.pages.getD idx none = none)
    (hread : idx * pageSize + pageSize ≤ bp.fileData.length)
    (hkind : getKind (sliceB bp.fileData (idx * pageSize) pageSize) = 3) :
    getPage bp idx = .ok
      (⟨bp.fileData, bp.pages.set idx (some ⟨idx, sliceB bp.fileData (idx * pageSize) pageSize⟩)⟩,
        ⟨idx, sliceB bp.fileData (idx * pageSize) pageSize⟩) := by
  simp only [getPage]
  rw [if_neg (by omega), hun, if_neg (by omega), hkind]

theorem getPage_load_unknown {bp : BufferPool} {idx : Nat}
    (hlt : idx < bp.pages.length)
    (hun : bp.pages.getD idx none = none)
    (hread : idx * pageSize + pageSize ≤ bp.fileData.length)
    (h1 : getKind (sliceB bp.fileData (idx * pageSize) pageSize) ≠ 1)
    (h2 : getKind (sliceB bp.fileData (idx * pageSize) pageSize) ≠ 2)
    (h3 : getKind (sliceB bp.fileData (idx * pageSize) pageSize) ≠ 3)
    (h4 : getKind (sliceB bp.fileData (idx * pageSize) pageSize) ≠ 4) :
    getPage bp idx = .panicked "invalid page kind" := by
  simp only [getPage]
  rw [if_neg (by omega), hun, if_neg (by omega)]

/-! ## DB facade lemmas -/

theorem DBSet_ok {bp : BufferPool} {pg : LeafPage} {cs : List Cell} {k v : List Nat}
    (h0 : bp.pages.getD 0 none = some pg)
    (hrep : Represents pg.data cs)
    (hnm : k ∉ keysOf cs)
    (hfit : k.length + v.length + 8 ≤ getFreeSpace pg.data) :
    DB.Set bp k v =
      .ok ⟨bp.fileData, bp.pages.set 0 (some ⟨pg.index, (addCell pg.data k v).2⟩)⟩ ∧
    Represents (addCell pg.data k v).2 (insertCell cs k v) := by
  obtain ⟨hnone, hrep'⟩ := addCell_ok hrep hfit
  have hfind : findCell pg.data k = none := by
    rw [findCell_rep hrep]
    exact findVal_eq_none_iff.mpr hnm
  have haddeq : addCell pg.data k v = (none, (addCell pg.data k v).2) := by
    rw [← hnone]
  refine ⟨?_, hrep'⟩
  simp only [DB.Set, getPage_cached h0, hfind]
  rw [haddeq]

theorem DBGet_cached {bp : BufferPool} {pg : LeafPage} {cs : List Cell} {k : List Nat}
    (h0 : bp.pages.getD 0 none = some pg)
    (hrep : Represents pg.data cs) :
    DB.Get bp k = .ok (findVal cs k) := by
  simp only [DB.Get, getPage_cached h0, findCell_rep hrep]

/-- Opening a file whose first page is a well-formed leaf page and reading a
key from the root: the fresh page appended by `OpenDB` lands beyond the old
contents, page 0 is lazily loaded back, and `findCell` runs over it. -/
theorem openDB_get_root {fd d' : List Nat} {cs' : List Cell} (k : List Nat)
    (hpref : sliceB fd 0 4096 = d')
    (hlen4096 : 4096 ≤ fd.length)
    (hsmall : fd.length < 4294967296)
    (hrep : Represents d' cs') :
    ∃ bp₂ : BufferPool, OpenDB fd = .ok bp₂ ∧ DB.Get bp₂ k = .ok (findVal cs' k) := by
  have hw : w32 fd.length = fd.length := w32_eq hsmall
  have hpc1 : 1 ≤ w32 fd.length / pageSize := by
    rw [hw]
    show 1 ≤ fd.length / 4096
    omega
  refine ⟨_, openDB_eq fd, ?_⟩
  have hget0 : (List.replicate (w32 fd.length / pageSize) (none : Option LeafPage) ++
      [some (⟨w32 fd.length / pageSize, newLeafPageData⟩ : LeafPage)]).getD 0 none = none := by
    rw [List.getD_eq_getElem?_getD,
      List.getElem?_append_left (by rw [List.length_replicate]; omega),
      List.getElem?_replicate, if_pos (by omega)]
    rfl
  have hwlen : (fileWriteAt fd ((w32 fd.length / pageSize) * pageSize) newLeafPageData).length =
      max fd.length ((w32 fd.length / pageSize) * pageSize + 4096) := by
    rw [length_fileWriteAt, length_newLeafPageData]
  have hps4096 : (4096 : Nat) ≤ (w32 fd.length / pageSize) * pageSize := by
    show (4096 : Nat) ≤ (w32 fd.length / pageSize) * 4096
    have := hpc1
    omega
  have hslice : sliceB (fileWriteAt fd ((w32 fd.length / pageSize) * pageSize) newLeafPageData)
      (0 * pageSize) pageSize = d' := by
    rw [Nat.zero_mul]
    show sliceB _ 0 4096 = d'
    rw [sliceB_fileWriteAt_front hps4096 hlen4096]
    exact hpref
  have hload := @getPage_load_leaf
    ⟨fileWriteAt fd ((w32 fd.length / pageSize) * pageSize) newLeafPageData,
      List.replicate (w32 fd.length / pageSize) none ++
        [some (⟨w32 fd.length / pageSize, newLeafPageData⟩ : LeafPage)]⟩ 0
    (by simp only [List.length_append, List.length_replicate, List.length_cons, List.length_nil]
        omega)
    hget0
    (by rw [Nat.zero_mul, hwlen]
        show 0 + 4096 ≤ _
        omega)
    (by rw [hslice]
        exact hrep.2.1)
  simp only [DB.Get, hload]
  rw [hslice, findCell_rep hrep]

/-- Auxiliary: the byte length of an inserted cell list. -/
theorem sizeCells_insertCell (cs : List Cell) (k v : List Nat) :
    sizeCells (insertCell cs k v) = sizeCells cs + (k.length + v.length + 8) := by
  have hsplit := List.takeWhile_append_dropWhile (notGtKey k) cs
  have h1 : sizeCells cs = sizeCells (cs.takeWhile (notGtKey k)) +
      sizeCells (cs.dropWhile (notGtKey k)) := by
    conv_lhs => rw [← hsplit]
    rw [sizeCells_append]
  rw [insertCell, sizeCells_append]
  show _ + (cellSize ⟨k, v⟩ + _) = _
  have h2 : cellSize ⟨k, v⟩ = 8 + k.length + v.length := rfl
  omega

/-- Auxiliary: the number of cells after an insertion. -/
theorem length_insertCell (cs : List Cell) (k v : List Nat) :
    (insertCell cs k v).length = cs.length + 1 := by
  have hsplit := List.takeWhile_append_dropWhile (notGtKey k) cs
  have h1 : cs.length = (cs.takeWhile (notGtKey k)).length +
      (cs.dropWhile (notGtKey k)).length := by
    conv_lhs => rw [← hsplit]
    rw [List.length_append]
  rw [insertCell, List.length_append, List.length_cons]
  omega

/-! ## The claims -/

/-- C1: for every non-empty key and value whose combined cell
(`len(key) + len(value) + 8` bytes) fits in the free space of page 0, with
the key not already present, `Set(key, value)` on an open store succeeds and
a subsequent `Get(key)` returns a value byte-for-byte equal to `value`. -/
theorem claim_C1 (bp : BufferPool) (pg : LeafPage) (cs : List Cell) (k v : List Nat)
    (hpage : bp.pages.getD 0 none = some pg)
    (hrep : Represents pg.data cs)
    (hkne : k ≠ []) (hvne : v ≠ [])
    (hnm : k ∉ keysOf cs)
    (hfit : k.length + v.length + 8 ≤ getFreeSpace pg.data) :
    ∃ bp' : BufferPool, DB.Set bp k v = .ok bp' ∧ DB.Get bp' k = .ok (some v) := by
  obtain ⟨hset, hrep'⟩ := DBSet_ok hpage hrep hnm hfit
  refine ⟨_, hset, ?_⟩
  have hlen0 : 0 < bp.pages.length := by
    rcases hps : bp.pages with _ | ⟨a, l⟩
    · rw [hps] at hpage
      cases hpage
    · simp
  have h0' : (bp.pages.set 0 (some ⟨pg.index, (addCell pg.data k v).2⟩)).getD 0 none =
      some ⟨pg.index, (addCell pg.data k v).2⟩ := by
    rw [List.getD_eq_getElem?_getD, List.getElem?_set_self hlen0]
    rfl
  rw [DBGet_cached h0' hrep', findVal_insertCell_not_mem hnm]

theorem claim_C1_witness :
    ([104] : List Nat) ≠ [] ∧ ([9, 9] : List Nat) ≠ [] ∧
    (∃ bp' : BufferPool,
      DB.Set ⟨[], [some ⟨0, newLeafPageData⟩]⟩ [104] [9, 9] = .ok bp' ∧
      DB.Get bp' [104] = .ok (some [9, 9])) :=
  ⟨by decide, by decide,
    claim_C1 ⟨[], [some ⟨0, newLeafPageData⟩]⟩ ⟨0, newLeafPageData⟩ [] [104] [9, 9]
      rfl represents_newLeafPageData (by decide) (by decide)
      (by simp [keysOf])
      (by rw [getFreeSpace_newLeafPageData]; decide)⟩

/-- C9: `Get` on a key never inserted returns the absent value with a nil
error, not an error. -/
theorem claim_C9 (bp : BufferPool) (pg : LeafPage) (cs : List Cell) (k : List Nat)
    (hpage : bp.pages.getD 0 none = some pg)
    (hrep : Represents pg.data cs)
    (hnm : k ∉ keysOf cs) :
    DB.Get bp k = .ok none := by
  rw [DBGet_cached hpage hrep, findVal_eq_none_iff.mpr hnm]

theorem claim_C9_witness :
    DB.Get ⟨[], [some ⟨0, newLeafPageData⟩]⟩ [109] = .ok none :=
  claim_C9 ⟨[], [some ⟨0, newLeafPageData⟩]⟩ ⟨0, newLeafPageData⟩ [] [109]
    rfl represents_newLeafPageData (by simp [keysOf])

/-- C2 fails as stated: `requiredSpace` is computed as
`uint32(len(key) + len(value) + 8)`, which wraps for huge inputs.  A key of
4294967296 bytes has a true required space of 2^32 + 8 bytes — far larger
than the fresh page's 4086 free bytes — yet the wrapped value is 8, the
guard passes, and `addCell` does not return a capacity error. -/
theorem claim_C2_counterexample :
    (List.replicate 4294967296 (0 : Nat)).length + ([] : List Nat).length + 8 >
      getFreeSpace newLeafPageData ∧
    (addCell newLeafPageData (List.replicate 4294967296 0) []).1 = none := by
  have hw : w32 ((List.replicate 4294967296 (0 : Nat)).length + ([] : List Nat).length + 8) = 8 := by
    rw [List.length_replicate]
    show w32 (4294967296 + 0 + 8) = 8
    norm_num [w32]
  constructor
  · rw [List.length_replicate, getFreeSpace_newLeafPageData]
    norm_num
  · simp only [addCell]
    rw [if_neg (by
      intro hcon
      rw [hw, getFreeSpace_newLeafPageData] at hcon
      omega)]

/-- C2 amended: for a well-formed leaf page and a cell whose true required
space `len(key) + len(value) + 8` is below 2^32 (so the `uint32` cast does
not wrap) and exceeds the free space, `addCell` returns the capacity error
and the page buffer is byte-for-byte unchanged — so `numCells`,
`freeSpace()` and all cell bytes are unchanged. -/
theorem claim_C2_amended {d : List Nat} {cs : List Cell} (k v : List Nat)
    (hrep : Represents d cs)
    (hsmall : k.length + v.length + 8 < 4294967296)
    (hgt : getFreeSpace d < k.length + v.length + 8) :
    addCell d k v =
      (some (.notEnoughSpace (k.length + v.length + 8) (getFreeSpace d)), d) ∧
    (addCell d k v).2 = d ∧
    getNumCells (addCell d k v).2 = getNumCells d ∧
    getFreeSpace (addCell d k v).2 = getFreeSpace d := by
  have hfree : getFreeSpace d = 4086 - sizeCells cs := getFreeSpace_rep hrep
  have heq := addCell_fail (by rw [w32_eq hsmall]; exact hgt)
  rw [w32_eq hsmall] at heq
  exact ⟨heq, by rw [heq], by rw [heq], by rw [heq]⟩

theorem claim_C2_amended_witness :
    (List.replicate 4090 (0 : Nat)).length + ([] : List Nat).length + 8 < 4294967296 ∧
    getFreeSpace newLeafPageData <
      (List.replicate 4090 (0 : Nat)).length + ([] : List Nat).length + 8 ∧
    addCell newLeafPageData (List.replicate 4090 0) [] =
      (some (.notEnoughSpace ((List.replicate 4090 (0 : Nat)).length + ([] : List Nat).length + 8)
        (getFreeSpace newLeafPageData)), newLeafPageData) :=
  ⟨by rw [List.length_replicate]; norm_num,
   by rw [List.length_replicate, getFreeSpace_newLeafPageData]; norm_num,
   (claim_C2_amended (List.replicate 4090 0) [] represents_newLeafPageData
      (by rw [List.length_replicate]; norm_num)
      (by rw [List.length_replicate, getFreeSpace_newLeafPageData]; norm_num)).1⟩

/-- C7 fails as stated: a successful `addCell` decreases `freeSpace()` by
the wrapped `uint32` required space, not by the true
`len(key) + len(value) + 8`.  A key of exactly 2^32 zero bytes wraps
`uint32(len(key))` to 0: the call succeeds, writing an empty-key cell, and
free space shrinks by 8, not by 2^32 + 8. -/
theorem claim_C7_counterexample :
    (addCell newLeafPageData (List.replicate 4294967296 0) []).1 = none ∧
    getFreeSpace (addCell newLeafPageData (List.replicate 4294967296 0) []).2 =
      getFreeSpace newLeafPageData - 8 ∧
    getFreeSpace newLeafPageData -
      getFreeSpace (addCell newLeafPageData (List.replicate 4294967296 0) []).2 ≠
      (List.replicate 4294967296 (0 : Nat)).length + ([] : List Nat).length + 8 := by
  have hgen : ∀ K : List Nat, K.length = 4294967296 →
      addCell newLeafPageData K [] = addCell newLeafPageData [] [] := by
    intro K hK
    have h232 : w32 ((4294967296 : Nat) + 0 + 8) = 8 := by norm_num [w32]
    have h8 : w32 ((0 : Nat) + 0 + 8) = 8 := by norm_num [w32]
    have hk0 : w32 (4294967296 : Nat) = 0 := by norm_num [w32]
    have hv0 : w32 (0 : Nat) = 0 := by norm_num [w32]
    simp only [addCell, hK, List.length_nil, getNumCells_newLeafPageData,
      getFreeSpace_newLeafPageData, findInsertLoop, Option.getD_none, h232, h8, hk0, hv0,
      List.take_zero]
  have hbridge : addCell newLeafPageData (List.replicate 4294967296 0) [] =
      addCell newLeafPageData [] [] :=
    hgen (List.replicate 4294967296 0) (List.length_replicate 4294967296 0)
  obtain ⟨hf, hrep'⟩ := @addCell_ok newLeafPageData [] [] [] represents_newLeafPageData
    (by rw [getFreeSpace_newLeafPageData]; norm_num)
  have hfree' : getFreeSpace (addCell newLeafPageData [] []).2 = 4078 := by
    rw [getFreeSpace_rep hrep']
    rfl
  refine ⟨by rw [hbridge]; exact hf, ?_, ?_⟩
  · rw [hbridge, hfree', getFreeSpace_newLeafPageData]
  · rw [hbridge, hfree', getFreeSpace_newLeafPageData, List.length_replicate]
    norm_num

/-- C7 amended: for every well-formed leaf page and every successful
`addCell(key, value)` whose true cell size is below 2^32 (no `uint32`
wrap), `freeSpace()` decreases by exactly `len(key) + len(value) + 8`, and
at every observation point `freeSpace()` plus the sum of all physical cell
sizes plus the 10-byte header equals the 4096-byte page size. -/
theorem claim_C7_amended {d k v : List Nat} {cs : List Cell}
    (hrep : Represents d cs)
    (hsmall : k.length + v.length + 8 < 4294967296)
    (hsucc : (addCell d k v).1 = none) :
    getFreeSpace (addCell d k v).2 = getFreeSpace d - (k.length + v.length + 8) ∧
    getFreeSpace d + sizeCells cs + 10 = 4096 ∧
    getFreeSpace (addCell d k v).2 + sizeCells (insertCell cs k v) + 10 = 4096 := by
  have hfit : k.length + v.length + 8 ≤ getFreeSpace d := by
    have := addCell_fst_none_le hsucc
    rwa [w32_eq hsmall] at this
  obtain ⟨_, hrep'⟩ := addCell_ok hrep hfit
  have hsz := represents_size_le hrep
  have hfree := getFreeSpace_rep hrep
  have hfree' := getFreeSpace_rep hrep'
  rw [sizeCells_insertCell] at hfree'
  refine ⟨?_, ?_, ?_⟩
  · rw [hfree, hfree']
    omega
  · rw [hfree]
    omega
  · rw [hfree', sizeCells_insertCell]
    omega

theorem claim_C7_amended_witness :
    ([5] : List Nat).length + ([7, 7] : List Nat).length + 8 < 4294967296 ∧
    (addCell newLeafPageData [5] [7, 7]).1 = none ∧
    getFreeSpace (addCell newLeafPageData [5] [7, 7]).2 =
      getFreeSpace newLeafPageData - (([5] : List Nat).length + ([7, 7] : List Nat).length + 8) :=
  ⟨by decide,
   (@addCell_ok newLeafPageData [5] [7, 7] [] represents_newLeafPageData
      (by rw [getFreeSpace_newLeafPageData]; decide)).1,
   (claim_C7_amended represents_newLeafPageData (by decide)
      (@addCell_ok newLeafPageData [5] [7, 7] [] represents_newLeafPageData
        (by rw [getFreeSpace_newLeafPageData]; decide)).1).1⟩

/-- C10: the leaf cell store does not reject duplicate keys.  On a sorted
page already containing key `k`, `addCell(k, v2)` with sufficient free space
succeeds, increments `numCells`, and places the new cell after all existing
cells with key ≤ `k` (in particular after the last cell whose key equals
`k`) and before the first strictly greater key; `findCell(k)` afterwards
still returns the first-inserted value for `k`, not `v2`. -/
theorem claim_C10 {d : List Nat} {cs : List Cell} (k v₂ : List Nat)
    (hrep : Represents d cs)
    (hsorted : cs.Pairwise keyLe)
    (hmem : k ∈ keysOf cs)
    (hfit : k.length + v₂.length + 8 ≤ getFreeSpace d) :
    (addCell d k v₂).1 = none ∧
    getNumCells (addCell d k v₂).2 = cs.length + 1 ∧
    Represents (addCell d k v₂).2
      (cs.takeWhile (notGtKey k) ++ ⟨k, v₂⟩ :: cs.dropWhile (notGtKey k)) ∧
    k ∈ keysOf (cs.takeWhile (notGtKey k)) ∧
    (∀ c ∈ cs.dropWhile (notGtKey k), bytesCompare k c.key = .lt) ∧
    findCell (addCell d k v₂).2 k = findVal cs k := by
  obtain ⟨h1, h2⟩ := addCell_ok hrep hfit
  refine ⟨h1, ?_, h2, mem_keysOf_takeWhile_of_mem hsorted hmem,
    dropWhile_all_gt hsorted, ?_⟩
  · rw [h2.2.2.1, length_insertCell]
  · rw [findCell_rep h2, findVal_insertCell_mem hsorted hmem]

theorem claim_C10_witness :
    (∃ d₁ : List Nat, (addCell newLeafPageData [1] [9]).2 = d₁) ∧
    findCell (addCell (addCell newLeafPageData [1] [9]).2 [1] [7]).2 [1] = some [9] := by
  have hr0 := represents_newLeafPageData
  obtain ⟨f1, r1⟩ := @addCell_ok newLeafPageData [1] [9] [] hr0
    (by rw [getFreeSpace_newLeafPageData]; decide)
  have hins1 : insertCell [] [1] [9] = [⟨[1], [9]⟩] := rfl
  rw [hins1] at r1
  refine ⟨⟨_, rfl⟩, ?_⟩
  have h10 := claim_C10 [1] [7] r1 (by
      rw [List.pairwise_cons]
      exact ⟨fun b hb => absurd hb (List.not_mem_nil b), List.Pairwise.nil⟩)
    (by simp [keysOf])
    (by rw [getFreeSpace_rep r1]; decide)
  rw [h10.2.2.2.2.2]
  rfl

/-- C3 fails as stated: `addCell` never rejects duplicate keys, so a
sequence of successful `addCell` calls can produce two adjacent cells with
equal keys, and iteration then yields keys `[0], [0]` — not strictly
ascending. -/
theorem claim_C3_counterexample :
    ∃ d : List Nat,
      addCellsFold newLeafPageData [([0], []), ([0], [])] = some d ∧
      (iterCellsList d).map (fun e => e.1) = [[0], [0]] ∧
      ¬ ((iterCellsList d).map (fun e => e.1)).Pairwise
        (fun a b => bytesCompare a b = .lt) := by
  obtain ⟨f1, r1⟩ := @addCell_ok newLeafPageData [0] [] [] represents_newLeafPageData
    (by rw [getFreeSpace_newLeafPageData]; decide)
  have hins1 : insertCell [] [0] [] = [⟨[0], []⟩] := rfl
  rw [hins1] at r1
  obtain ⟨f2, r2⟩ := @addCell_ok (addCell newLeafPageData [0] []).2 [0] [] [⟨[0], []⟩] r1
    (by rw [getFreeSpace_rep r1]; decide)
  have hins2 : insertCell [⟨[0], []⟩] [0] [] = [⟨[0], []⟩, ⟨[0], []⟩] := by decide
  rw [hins2] at r2
  have e1 : addCell newLeafPageData [0] [] = (none, (addCell newLeafPageData [0] []).2) := by
    rw [← f1]
  have e2 : addCell (addCell newLeafPageData [0] []).2 [0] [] =
      (none, (addCell (addCell newLeafPageData [0] []).2 [0] []).2) := by
    rw [← f2]
  refine ⟨(addCell (addCell newLeafPageData [0] []).2 [0] []).2, ?_, ?_, ?_⟩
  · rw [addCellsFold_cons_ok e1, addCellsFold_cons_ok e2]
    rfl
  · rw [iterCellsList_rep r2, cellsWithOffsets_map_fst]
    rfl
  · intro hp
    rw [iterCellsList_rep r2, cellsWithOffsets_map_fst] at hp
    have hlt := (List.pairwise_cons.mp hp).1 [0] (by simp [keysOf, cellsWithOffsets])
    have heq : bytesCompare [0] [0] = .eq := bytesCompare_eq_iff.mpr rfl
    rw [heq] at hlt
    cases hlt

/-- C3 amended: after any finite sequence of successful `addCell` calls on
an initially empty leaf page whose keys are pairwise distinct and whose
cell sizes stay below 2^32 (no `uint32` wrap), iterating the page yields
the keys in strictly ascending byte-wise lexicographic order, and the cells
are contiguous and gapless: the first cell starts at offset 10 (right after
the header) and each subsequent cell starts exactly where the previous one
ends. -/
theorem claim_C3_amended (l : List (List Nat × List Nat)) (d : List Nat)
    (hsmall : ∀ kv ∈ l, kv.1.length + kv.2.length + 8 < 4294967296)
    (hdist : (l.map Prod.fst).Pairwise (fun a b => a ≠ b))
    (hsucc : addCellsFold newLeafPageData l = some d) :
    ((iterCellsList d).map (fun e => e.1)).Pairwise (fun a b => bytesCompare a b = .lt) ∧
    iterCellsList d = cellsWithOffsets (insertFold [] l) 10 ∧
    List.Chain' (fun e₁ e₂ => e₂.2.2 = e₁.2.2 + 8 + e₁.1.length + e₁.2.1.length)
      (iterCellsList d) ∧
    (∀ e, (iterCellsList d).head? = some e → e.2.2 = 10) := by
  have hrep := addCellsFold_spec represents_newLeafPageData hsmall hsucc
  have hord : (insertFold [] l).Pairwise keyLt :=
    insertFold_pairwise_lt List.Pairwise.nil hdist (by simp [keysOf])
  refine ⟨?_, iterCellsList_rep hrep, ?_, ?_⟩
  · rw [iterCellsList_rep hrep, cellsWithOffsets_map_fst]
    exact List.pairwise_map.mpr hord
  · rw [iterCellsList_rep hrep]
    exact cellsWithOffsets_chain _ _
  · intro e he
    rw [iterCellsList_rep hrep] at he
    exact cellsWithOffsets_head he

theorem claim_C3_amended_witness :
    (∀ kv ∈ [([1], [2]), ([0], [])], kv.1.length + kv.2.length + 8 < 4294967296) ∧
    (([([1], [2]), ([0], [])].map Prod.fst).Pairwise fun a b => a ≠ b) ∧
    (∃ d : List Nat, addCellsFold newLeafPageData [([1], [2]), ([0], [])] = some d ∧
      ((iterCellsList d).map (fun e => e.1)).Pairwise (fun a b => bytesCompare a b = .lt)) := by
  obtain ⟨f1, r1⟩ := @addCell_ok newLeafPageData [1] [2] [] represents_newLeafPageData
    (by rw [getFreeSpace_newLeafPageData]; decide)
  have hins1 : insertCell [] [1] [2] = [⟨[1], [2]⟩] := rfl
  rw [hins1] at r1
  obtain ⟨f2, _⟩ := @addCell_ok (addCell newLeafPageData [1] [2]).2 [0] [] [⟨[1], [2]⟩] r1
    (by rw [getFreeSpace_rep r1]; decide)
  have e1 : addCell newLeafPageData [1] [2] = (none, (addCell newLeafPageData [1] [2]).2) := by
    rw [← f1]
  have e2 : addCell (addCell newLeafPageData [1] [2]).2 [0] [] =
      (none, (addCell (addCell newLeafPageData [1] [2]).2 [0] []).2) := by
    rw [← f2]
  have hsucc : addCellsFold newLeafPageData [([1], [2]), ([0], [])] =
      some (addCell (addCell newLeafPageData [1] [2]).2 [0] []).2 := by
    rw [addCellsFold_cons_ok e1, addCellsFold_cons_ok e2]
    rfl
  refine ⟨by decide, by decide, ⟨_, hsucc, ?_⟩⟩
  exact (claim_C3_amended [([1], [2]), ([0], [])] _ (by decide) (by decide) hsucc).1

/-- C5 fails as stated: `OpenDB` calls `addPage` unconditionally, so opening
a non-empty, well-formed one-page file appends a second page and grows the
file to 8192 bytes — the page count is not unchanged. -/
theorem claim_C5_counterexample :
    ∃ bp : BufferPool,
      OpenDB newLeafPageData = .ok bp ∧
      w32 newLeafPageData.length / pageSize = 1 ∧
      bp.pages.length = 2 ∧
      bp.fileData.length = 8192 := by
  have hpc : w32 newLeafPageData.length / pageSize = 1 := by
    rw [length_newLeafPageData]
    rfl
  refine ⟨_, openDB_eq newLeafPageData, hpc, ?_, ?_⟩
  · simp only [List.length_append, List.length_replicate, List.length_cons, List.length_nil, hpc]
  · rw [length_fileWriteAt, hpc, length_newLeafPageData]
    show max 4096 (1 * pageSize + 4096) = 8192
    simp only [pageSize]
    omega

/-- C5 amended: `OpenDB` always appends exactly one fresh leaf root page at
index `fileSize / pageSize` and immediately flushes it, even when the file
is non-empty; on an empty file this creates the root page at index 0. -/
theorem claim_C5_amended (fd : List Nat) :
    ∃ bp : BufferPool,
      OpenDB fd = .ok bp ∧
      bp.pages.length = w32 fd.length / pageSize + 1 ∧
      bp.pages.getD (w32 fd.length / pageSize) none =
        some ⟨w32 fd.length / pageSize, newLeafPageData⟩ ∧
      bp.fileData = fileWriteAt fd ((w32 fd.length / pageSize) * pageSize) newLeafPageData ∧
      (fd = [] → bp.pages.getD 0 none = some ⟨0, newLeafPageData⟩) := by
  refine ⟨_, openDB_eq fd, ?_, ?_, rfl, ?_⟩
  · simp only [List.length_append, List.length_replicate, List.length_cons, List.length_nil]
  · rw [List.getD_eq_getElem?_getD,
      List.getElem?_append_right (by rw [List.length_replicate]),
      List.length_replicate, Nat.sub_self]
    rfl
  · intro he
    subst he
    rfl

/-- C6 fails as stated: `getPageCount` computes `uint32(fileSize) / pageSize`
with plain integer division and never checks divisibility, so opening a
100-byte file (not a multiple of 4096) raises no format error — the pool
simply starts with zero page slots. -/
theorem claim_C6_counterexample :
    (100 : Nat) % pageSize ≠ 0 ∧
    newBufferPool (List.replicate 100 0) = ⟨List.replicate 100 0, []⟩ ∧
    getPageCount (newBufferPool (List.replicate 100 0)) = 0 := by
  refine ⟨by decide, ?_, ?_⟩
  · rw [newBufferPool, List.length_replicate]
    rfl
  · rw [newBufferPool, getPageCount, List.length_replicate]
    rfl

/-- C6 amended: opening a buffer pool computes the initial page count as
`uint32(fileSize) / pageSize` by truncating integer division; a size that
is not an exact multiple of 4096 is not detected and raises no error — the
trailing bytes are simply ignored (for a sub-page file the count is 0 and
the whole store open succeeds, overwriting the partial contents at offset
0 with the fresh root page). -/
theorem claim_C6_amended (fd : List Nat) (hlt : fd.length < 4096) :
    getPageCount (newBufferPool fd) = 0 ∧
    OpenDB fd = .ok ⟨fileWriteAt fd 0 newLeafPageData, [some ⟨0, newLeafPageData⟩]⟩ := by
  have hw : w32 fd.length = fd.length := w32_eq (by omega)
  have hpc : w32 fd.length / pageSize = 0 := by
    rw [hw]
    exact Nat.div_eq_of_lt hlt
  constructor
  · rw [getPageCount, newBufferPool]
    exact hpc
  · rw [openDB_eq fd, hpc]
    rfl

theorem claim_C6_amended_witness :
    (List.replicate 100 (0 : Nat)).length < 4096 ∧
    (100 : Nat) % 4096 ≠ 0 ∧
    getPageCount (newBufferPool (List.replicate 100 0)) = 0 ∧
    OpenDB (List.replicate 100 0) =
      .ok ⟨fileWriteAt (List.replicate 100 0) 0 newLeafPageData, [some ⟨0, newLeafPageData⟩]⟩ :=
  ⟨by rw [List.length_replicate]; norm_num, by decide,
    (claim_C6_amended (List.replicate 100 0) (by rw [List.length_replicate]; norm_num)).1,
    (claim_C6_amended (List.replicate 100 0) (by rw [List.length_replicate]; norm_num)).2⟩

/-- C8 fails as stated: dispatching on an unknown page-kind tag does not
produce a reported corruption error — `getPage` panics (`"invalid page
kind"`), an uncontrolled crash.  (Moreover, the well-formed non-leaf tags
panic too, via the `TODO` branches.) -/
theorem claim_C8_counterexample :
    getKind (9 :: List.replicate 4095 0) = 9 ∧
    getPage ⟨9 :: List.replicate 4095 0, [none]⟩ 0 = .panicked "invalid page kind" := by
  have hlen : (9 :: List.replicate 4095 (0 : Nat)).length = 4096 := by
    rw [List.length_cons, List.length_replicate]
  have hslice : sliceB (9 :: List.replicate 4095 (0 : Nat)) (0 * pageSize) pageSize =
      9 :: List.replicate 4095 0 := by
    rw [Nat.zero_mul]
    show (List.drop 0 _).take 4096 = _
    rw [List.drop_zero]
    exact List.take_of_length_le (by rw [hlen])
  have hb : getKind (sliceB (9 :: List.replicate 4095 (0 : Nat)) (0 * pageSize) pageSize) = 9 := by
    rw [hslice]
    rfl
  refine ⟨rfl, ?_⟩
  exact @getPage_load_unknown ⟨9 :: List.replicate 4095 0, [none]⟩ 0
    (by simp only [List.length_cons, List.length_nil]; omega)
    rfl
    (by rw [Nat.zero_mul, hlen]; show 0 + 4096 ≤ 4096; omega)
    (by rw [hb]; decide) (by rw [hb]; decide) (by rw [hb]; decide) (by rw [hb]; decide)

/-- C8 amended: `getKind` returns the raw first byte with no validation (a
silent pass-through), and `getPage` constructs a page only for the leaf tag
(3): the other well-formed tags — unallocated (1), header (2), internal
(4) — panic with a TODO message, and every unknown tag value panics with
"invalid page kind"; no tag value is reported as an error result. -/
theorem claim_C8_amended {bp : BufferPool} {idx b : Nat}
    (hlt : idx < bp.pages.length)
    (hun : bp.pages.getD idx none = none)
    (hread : idx * pageSize + pageSize ≤ bp.fileData.length)
    (hb : getKind (sliceB bp.fileData (idx * pageSize) pageSize) = b) :
    (b = pageKindLeaf → getPage bp idx = .ok
      (⟨bp.fileData, bp.pages.set idx (some ⟨idx, sliceB bp.fileData (idx * pageSize) pageSize⟩)⟩,
        ⟨idx, sliceB bp.fileData (idx * pageSize) pageSize⟩)) ∧
    (b = pageKindUnallocated → getPage bp idx = .panicked "TODO: import unallocated page") ∧
    (b = pageKindHeader → getPage bp idx = .panicked "TODO: import header page") ∧
    (b = pageKindInternal → getPage bp idx = .panicked "TODO: import internal page") ∧
    (b ≠ 1 → b ≠ 2 → b ≠ 3 → b ≠ 4 → getPage bp idx = .panicked "invalid page kind") := by
  refine ⟨?_, ?_, ?_, ?_, ?_⟩
  · intro he
    exact getPage_load_leaf hlt hun hread (by rw [hb, he]; rfl)
  · intro he
    have hk : getKind (sliceB bp.fileData (idx * pageSize) pageSize) = 1 := by
      rw [hb, he]
      rfl
    simp only [getPage]
    rw [if_neg (by omega), hun, if_neg (by omega), hk]
  · intro he
    have hk : getKind (sliceB bp.fileData (idx * pageSize) pageSize) = 2 := by
      rw [hb, he]
      rfl
    simp only [getPage]
    rw [if_neg (by omega), hun, if_neg (by omega), hk]
  · intro he
    have hk : getKind (sliceB bp.fileData (idx * pageSize) pageSize) = 4 := by
      rw [hb, he]
      rfl
    simp only [getPage]
    rw [if_neg (by omega), hun, if_neg (by omega), hk]
  · intro h1 h2 h3 h4
    exact getPage_load_unknown hlt hun hread
      (by rw [hb]; exact h1) (by rw [hb]; exact h2) (by rw [hb]; exact h3) (by rw [hb]; exact h4)

theorem claim_C8_amended_witness :
    getKind (sliceB (9 :: List.replicate 4095 0) (0 * pageSize) pageSize) = 9 ∧
    getPage ⟨9 :: List.replicate 4095 0, [none]⟩ 0 = .panicked "invalid page kind" := by
  have hlen : (9 :: List.replicate 4095 (0 : Nat)).length = 4096 := by
    rw [List.length_cons, List.length_replicate]
  have hslice : sliceB (9 :: List.replicate 4095 (0 : Nat)) (0 * pageSize) pageSize =
      9 :: List.replicate 4095 0 := by
    rw [Nat.zero_mul]
    show (List.drop 0 _).take 4096 = _
    rw [List.drop_zero]
    exact List.take_of_length_le (by rw [hlen])
  have hb : getKind (sliceB (9 :: List.replicate 4095 (0 : Nat)) (0 * pageSize) pageSize) = 9 := by
    rw [hslice]
    rfl
  refine ⟨hb, ?_⟩
  exact (@claim_C8_amended ⟨9 :: List.replicate 4095 0, [none]⟩ 0 9
    (by simp only [List.length_cons, List.length_nil]; omega)
    rfl
    (by rw [Nat.zero_mul, hlen]; show 0 + 4096 ≤ 4096; omega)
    hb).2.2.2.2 (by decide) (by decide) (by decide) (by decide)

/-- C4 fails as stated: `getPageCount` computes `uint32(fileSize) / pageSize`,
and the cast wraps once the backing file reaches 2^32 bytes — a size
reachable through the public API alone, since every `OpenDB` unconditionally
appends one 4096-byte page.  Opening a 2^32-byte file succeeds with a pool
that believes it has 0 pages; a value is then written via `Set` into the
root and flushed by `close()`, but the fresh `open()` again sees a wrapped
page count of 0 and its unconditional `addPage` writes a brand-new empty
root over offset 0, clobbering the flushed page: `Get` afterwards returns
absent instead of the written bytes. -/
theorem claim_C4_counterexample :
    ∃ bp bp' bp₂ : BufferPool,
      OpenDB (List.replicate 4294967296 0) = .ok bp ∧
      DB.Set bp [104] [119] = .ok bp' ∧
      OpenDB (closePool bp') = .ok bp₂ ∧
      DB.Get bp₂ [104] = .ok none := by
  have hw : w32 (List.replicate 4294967296 (0 : Nat)).length = 0 := by
    rw [List.length_replicate]
    show 4294967296 % 4294967296 = 0
    norm_num
  have h1 := openDB_eq (List.replicate 4294967296 0)
  rw [hw] at h1
  simp only [Nat.zero_div, Nat.zero_mul, List.replicate_zero, List.nil_append] at h1
  have hfit : ([104] : List Nat).length + ([119] : List Nat).length + 8 ≤
      getFreeSpace newLeafPageData := by
    rw [getFreeSpace_newLeafPageData]
    decide
  have hrep2 : Represents (addCell newLeafPageData [104] [119]).2
      (insertCell [] [104] [119]) :=
    (addCell_ok represents_newLeafPageData hfit).2
  have hset2 : DB.Set ⟨fileWriteAt (List.replicate 4294967296 0) 0 newLeafPageData,
        [some ⟨0, newLeafPageData⟩]⟩ [104] [119] =
      .ok ⟨fileWriteAt (List.replicate 4294967296 0) 0 newLeafPageData,
        [some ⟨0, (addCell newLeafPageData [104] [119]).2⟩]⟩ :=
    (@DBSet_ok ⟨fileWriteAt (List.replicate 4294967296 0) 0 newLeafPageData,
        [some ⟨0, newLeafPageData⟩]⟩ ⟨0, newLeafPageData⟩ [] [104] [119]
      rfl represents_newLeafPageData (by simp [keysOf]) hfit).1
  have hFlen : (fileWriteAt (List.replicate 4294967296 (0 : Nat)) 0 newLeafPageData).length =
      4294967296 := by
    rw [length_fileWriteAt, List.length_replicate, length_newLeafPageData]
    omega
  have hclose : closePool ⟨fileWriteAt (List.replicate 4294967296 0) 0 newLeafPageData,
        [some ⟨0, (addCell newLeafPageData [104] [119]).2⟩]⟩ =
      fileWriteAt (fileWriteAt (List.replicate 4294967296 0) 0 newLeafPageData) 0
        (addCell newLeafPageData [104] [119]).2 := by
    simp only [closePool, flushAll, Nat.zero_mul]
  have hClen : (fileWriteAt (fileWriteAt (List.replicate 4294967296 (0 : Nat)) 0
      newLeafPageData) 0 (addCell newLeafPageData [104] [119]).2).length = 4294967296 := by
    rw [length_fileWriteAt, hFlen, hrep2.1]
    omega
  have hw2 : w32 (fileWriteAt (fileWriteAt (List.replicate 4294967296 (0 : Nat)) 0
      newLeafPageData) 0 (addCell newLeafPageData [104] [119]).2).length = 0 := by
    rw [hClen]
    show 4294967296 % 4294967296 = 0
    norm_num
  have h2 := openDB_eq (fileWriteAt (fileWriteAt (List.replicate 4294967296 0) 0
    newLeafPageData) 0 (addCell newLeafPageData [104] [119]).2)
  rw [hw2] at h2
  simp only [Nat.zero_div, Nat.zero_mul, List.replicate_zero, List.nil_append] at h2
  have hget : DB.Get ⟨fileWriteAt (fileWriteAt (fileWriteAt (List.replicate 4294967296 0) 0
        newLeafPageData) 0 (addCell newLeafPageData [104] [119]).2) 0 newLeafPageData,
      [some ⟨0, newLeafPageData⟩]⟩ [104] = .ok none :=
    @DBGet_cached ⟨fileWriteAt (fileWriteAt (fileWriteAt (List.replicate 4294967296 0) 0
        newLeafPageData) 0 (addCell newLeafPageData [104] [119]).2) 0 newLeafPageData,
      [some ⟨0, newLeafPageData⟩]⟩ ⟨0, newLeafPageData⟩ [] [104]
      rfl represents_newLeafPageData
  refine ⟨_, _, _, h1, hset2, ?_, hget⟩
  rw [hclose]
  exact h2

/-- C4 amended: a key/value pair written via `Set` on an open store is still
retrievable, byte-for-byte, after `close()` (which flushes every loaded
page) and a fresh `open()` of the same file (which lazily reads page 0 back
from the file) — provided the backing file stays below 2^32 bytes
(`fileSize ≤ 4096 * slots` with `4096 * slots < 2^32`), so that the
`uint32(fileSize)` cast in `getPageCount` does not wrap on the reopen. -/
theorem claim_C4_amended (bp : BufferPool) (pg : LeafPage) (cs : List Cell) (k v : List Nat)
    (hpage : bp.pages.getD 0 none = some pg)
    (hrep : Represents pg.data cs)
    (hnm : k ∉ keysOf cs)
    (hfit : k.length + v.length + 8 ≤ getFreeSpace pg.data)
    (hsizes : ∀ op ∈ bp.pages, ∀ p : LeafPage, op = some p → p.data.length = 4096)
    (hfdlen : bp.fileData.length ≤ 4096 * bp.pages.length)
    (hsmallfile : 4096 * bp.pages.length < 4294967296) :
    ∃ bp' bp₂ : BufferPool,
      DB.Set bp k v = .ok bp' ∧
      OpenDB (closePool bp') = .ok bp₂ ∧
      DB.Get bp₂ k = .ok (some v) := by
  obtain ⟨hset, hrep'⟩ := DBSet_ok hpage hrep hnm hfit
  have hd'len : (addCell pg.data k v).2.length = 4096 := hrep'.1
  rcases hps : bp.pages with _ | ⟨op₀, rest⟩
  · rw [hps] at hpage
    cases hpage
  have hclose : closePool ⟨bp.fileData, bp.pages.set 0 (some ⟨pg.index, (addCell pg.data k v).2⟩)⟩ =
      flushAll rest 1 (fileWriteAt bp.fileData 0 (addCell pg.data k v).2) := by
    show flushAll (bp.pages.set 0 (some ⟨pg.index, (addCell pg.data k v).2⟩)) 0 bp.fileData = _
    rw [hps, List.set_cons_zero]
    show flushAll rest (0 + 1) (fileWriteAt bp.fileData (0 * pageSize) _) = _
    rw [Nat.zero_mul, Nat.zero_add]
  have hw0len : 4096 ≤ (fileWriteAt bp.fileData 0 (addCell pg.data k v).2).length := by
    rw [length_fileWriteAt, hd'len]
    omega
  obtain ⟨hpref, hflen, hfle⟩ := @flushAll_untouched rest 1
    (fileWriteAt bp.fileData 0 (addCell pg.data k v).2) (le_refl 1) hw0len
    (fun op hop => hsizes op (by rw [hps]; exact List.mem_cons_of_mem _ hop))
  have hpref0 : sliceB (fileWriteAt bp.fileData 0 (addCell pg.data k v).2) 0 4096 =
      (addCell pg.data k v).2 := by
    have := sliceB_fileWriteAt_zero bp.fileData (addCell pg.data k v).2
    rwa [hd'len] at this
  have hNlen : bp.pages.length = rest.length + 1 := by
    rw [hps, List.length_cons]
  have hsmallF :
      (flushAll rest 1 (fileWriteAt bp.fileData 0 (addCell pg.data k v).2)).length <
        4294967296 := by
    have h1 : (fileWriteAt bp.fileData 0 (addCell pg.data k v).2).length =
        max bp.fileData.length 4096 := by
      rw [length_fileWriteAt, hd'len]
    rw [hNlen] at hfdlen hsmallfile
    rw [h1] at hfle
    omega
  obtain ⟨bp₂, hopen, hget⟩ := openDB_get_root k (by rw [hpref]; exact hpref0) hflen hsmallF hrep'
  rw [findVal_insertCell_not_mem hnm] at hget
  exact ⟨_, bp₂, hset, by rw [hclose]; exact hopen, hget⟩

theorem claim_C4_amended_witness :
    (∀ op ∈ [some (⟨0, newLeafPageData⟩ : LeafPage)], ∀ p : LeafPage,
      op = some p → p.data.length = 4096) ∧
    (∃ bp' bp₂ : BufferPool,
      DB.Set ⟨newLeafPageData, [some ⟨0, newLeafPageData⟩]⟩ [104] [119] = .ok bp' ∧
      OpenDB (closePool bp') = .ok bp₂ ∧
      DB.Get bp₂ [104] = .ok (some [119])) := by
  have hsz : ∀ op ∈ [some (⟨0, newLeafPageData⟩ : LeafPage)], ∀ p : LeafPage,
      op = some p → p.data.length = 4096 := by
    intro op hop p hp
    rcases List.mem_cons.mp hop with he | he
    · rw [he] at hp
      cases hp
      exact length_newLeafPageData
    · cases he
  refine ⟨hsz, ?_⟩
  exact claim_C4_amended ⟨newLeafPageData, [some ⟨0, newLeafPageData⟩]⟩ ⟨0, newLeafPageData⟩ [] [104] [119]
    rfl represents_newLeafPageData (by simp [keysOf])
    (by rw [getFreeSpace_newLeafPageData]; decide)
    hsz
    (by rw [length_newLeafPageData]; show 4096 ≤ 4096 * 1; omega)
    (by show 4096 * 1 < 4294967296; omega)

end Tinykv
